import Mathlib

/-!
# SHiP replacement policy: a shallow embedding of `replacement/ship/ship.cc`

The three per-instance tables of the source (`ship_rand_sets[this]`,
`sampler[this]`, `ship_rrpv_values[this]`) and the per-core prediction tables
(`SHCT[{this, cpu}]`) of one cache instance are the four fields of `State`.
What the source takes from the host simulator (`NUM_SET`, `NUM_WAY`,
`NUM_CPUS`, the access type `WRITE`, the helpers `lg2` and `eq_addr`, the
member `current_cycle`) is not defined in `ship.cc`; it enters the model as the
fields of `Host`, respectively as an argument.

Conventions.
* Iterator ranges `[begin, end)` are list slices `(l.drop b).take n`; an
  iterator is its offset from `begin`, and `end` is the length of the slice.
* `int` RRPV values are `Int`; `unsigned` SHCT counters are `Nat`.  Every
  increment and decrement of a counter in the source sits under a guard
  (`> 0`, `< SHCT_MAX`) that is kept in the model, so no wrap-around occurs.
* `std::size_t` is 64 bits wide: the seed of the generator wraps modulo `2^64`.
* The two `while` loops of the source need not terminate.  They are modelled
  with a fuel argument that bounds the number of executions of the loop body:
  `none` means that the loop is still running when the fuel is used up.
-/

namespace Ship

/-! ## Constants and data model -/

/-- Line 9: `#define maxRRPV 3`. -/
def maxRRPV : Int := 3

/-- Line 10: `#define SHCT_SIZE 16384`. -/
def SHCT_SIZE : Nat := 16384

/-- Line 11: `#define SHCT_PRIME 16381`. -/
def SHCT_PRIME : Nat := 16381

/-- Line 13: `#define SHCT_MAX 7`. -/
def SHCT_MAX : Nat := 7

/-- The `class SAMPLER_class`, with the default member initialisers of the source. -/
structure SAMPLER_class where
  valid : Bool := false
  type : Nat := 0
  used : Nat := 0
  address : Nat := 0
  cl_addr : Nat := 0
  ip : Nat := 0
  last_used : Nat := 0
deriving DecidableEq, Repr

/-- What `ship.cc` uses from the host simulator (`cache.h` and its utilities),
none of which is defined in the file itself. -/
structure Host where
  NUM_SET : Nat
  NUM_WAY : Nat
  NUM_CPUS : Nat
  WRITE : Nat
  lg2 : Nat → Nat
  eq_addr : Nat → Nat → SAMPLER_class → Bool

/-- Line 12: `#define SAMPLER_SET (256 * NUM_CPUS)`. -/
def SAMPLER_SET (h : Host) : Nat := 256 * h.NUM_CPUS

/-- The policy state of one cache instance: the entries of the four global maps
of the source that belong to `this`.  `SHCT c i` is counter `i` of core `c`. -/
structure State where
  ship_rand_sets : List Nat
  sampler : List SAMPLER_class
  ship_rrpv_values : List Int
  SHCT : Nat → Nat → Nat

/-! ## Standard-library algorithms used by the source -/

/-- The algorithm `std::find_if(begin, end, p)`: offset of the first element that satisfies
`p`, the length of the range when there is none. -/
def find_if {α : Type} (p : α → Bool) : List α → Nat
  | [] => 0
  | x :: xs => if p x then 0 else find_if p xs + 1

/-- The algorithm `std::find(begin, end, v)`. -/
def find {α : Type} [DecidableEq α] (v : α) (l : List α) : Nat :=
  find_if (fun x => decide (x = v)) l

/-- The algorithm `std::lower_bound(begin, end, val)` on an ascending range: offset of the
first element that is not less than `val`. -/
def lower_bound (val : Nat) : List Nat → Nat
  | [] => 0
  | x :: xs => if x < val then lower_bound val xs + 1 else 0

/-- The member `vector::insert(loc, val)`. -/
def insert_at (l : List Nat) (loc val : Nat) : List Nat :=
  l.take loc ++ val :: l.drop loc

/-- The loop of `std::min_element(begin, end, comp)` with
`comp x y = x.last_used < y.last_used`: `i` is the offset of the element
looked at, `smallest` the offset of the smallest element so far and `sv` that
element. -/
def min_element_loop : List SAMPLER_class → Nat → Nat → SAMPLER_class → Nat
  | [], _, smallest, _ => smallest
  | x :: xs, i, smallest, sv =>
    if x.last_used < sv.last_used then min_element_loop xs (i + 1) i x
    else min_element_loop xs (i + 1) smallest sv

/-- The algorithm `std::min_element(begin, end, comp)`: offset of the first smallest element,
`0` (which is `end`) on an empty range. -/
def min_element : List SAMPLER_class → Nat
  | [] => 0
  | x :: xs => min_element_loop xs 1 0 x

/-! ## `CACHE::initialize_replacement` -/

/-- Line 44: `rand_seed * 1103515245 + 12345` in `std::size_t`. -/
def next_seed (rand_seed : Nat) : Nat := (rand_seed * 1103515245 + 12345) % 2 ^ 64

/-- Lines 40 and 45: `(rand_seed / 65536) % NUM_SET`. -/
def seed_val (NUM_SET rand_seed : Nat) : Nat := (rand_seed / 65536) % NUM_SET

/-- The duplicate-rejection loop (lines 43-47):
`while (loc != end && *loc == val) { rand_seed = ...; val = ...; loc = ...; }`.
Returns the values of `rand_seed`, `val` and `loc` on exit. -/
def reject_loop (NUM_SET : Nat) (sets : List Nat) :
    Nat → Nat → Nat → Nat → Option (Nat × Nat × Nat)
  | fuel, rand_seed, val, loc =>
    if loc ≠ sets.length ∧ sets[loc]? = some val then
      match fuel with
      | 0 => none
      | fuel + 1 =>
        let rand_seed := next_seed rand_seed
        let val := seed_val NUM_SET rand_seed
        let loc := lower_bound val sets
        reject_loop NUM_SET sets fuel rand_seed val loc
    else some (rand_seed, val, loc)

/-- The `for` loop of lines 39-50 with `n` iterations left; every
duplicate-rejection loop in it gets `fuel`.  Returns the final seed and list. -/
def sample_loop (NUM_SET fuel : Nat) : Nat → Nat → List Nat → Option (Nat × List Nat)
  | 0, rand_seed, sets => some (rand_seed, sets)
  | n + 1, rand_seed, sets =>
    let val := seed_val NUM_SET rand_seed
    let loc := lower_bound val sets
    match reject_loop NUM_SET sets fuel rand_seed val loc with
    | none => none
    | some (rand_seed, val, loc) => sample_loop NUM_SET fuel n rand_seed (insert_at sets loc val)

/-- The function `CACHE::initialize_replacement` on a fresh instance (no entry
for `this` in any of the maps, so `ship_rand_sets[this]` starts empty and
`SHCT[{this, cpu}]` is value-initialised to zeros on first use). -/
def initialize_replacement (h : Host) (fuel : Nat) : Option State :=
  match sample_loop h.NUM_SET fuel (SAMPLER_SET h) (1103515245 + 12345) [] with
  | none => none
  | some (_, sets) =>
    some
      { ship_rand_sets := sets
        sampler := List.replicate (SAMPLER_SET h * h.NUM_WAY) {}
        ship_rrpv_values := List.replicate (h.NUM_SET * h.NUM_WAY) maxRRPV
        SHCT := fun _ _ => 0 }

/-! ## `CACHE::find_victim` -/

/-- The range `[begin, end)` of `find_victim`: the slots of `set`. -/
def rrpv_set (h : Host) (rrpv : List Int) (set : Nat) : List Int :=
  (rrpv.drop (set * h.NUM_WAY)).take h.NUM_WAY

/-- Lines 65-66: `for (auto it = begin; it != end; ++it) ++(*it);`. -/
def age_set (h : Host) (rrpv : List Int) (set : Nat) : List Int :=
  rrpv.take (set * h.NUM_WAY) ++ (rrpv_set h rrpv set).map (fun x => x + 1)
    ++ rrpv.drop (set * h.NUM_WAY + h.NUM_WAY)

/-- Lines 63-71: the scan for `maxRRPV` and the aging loop around it.  `fuel`
bounds the number of aging passes.  Returns the way and the RRPV table. -/
def find_victim_loop (h : Host) (set : Nat) : Nat → List Int → Option (Nat × List Int)
  | fuel, rrpv =>
    let victim := find maxRRPV (rrpv_set h rrpv set)
    if victim = (rrpv_set h rrpv set).length then
      match fuel with
      | 0 => none
      | fuel + 1 => find_victim_loop h set fuel (age_set h rrpv set)
    else some (victim, rrpv)

/-- The function `CACHE::find_victim(cpu, instr_id, set, current_set, ip,
full_addr, type)`; only `set` is used by the body. -/
def find_victim (h : Host) (fuel : Nat) (s : State) (set : Nat) : Option (Nat × State) :=
  match find_victim_loop h set fuel s.ship_rrpv_values with
  | none => none
  | some (way, rrpv) => some (way, { s with ship_rrpv_values := rrpv })

/-! ## `CACHE::update_replacement_state` -/

/-- Lines 86-119, the sampler update of a non-write access.  `s_idx` is the
position of `set` in the sampled-sets list, and the range searched starts at
offset `s_idx` of the sampler table, as line 89 computes it:
`std::next(std::begin(sampler[this]), std::distance(std::begin(ship_rand_sets[this]), s_idx))`.
A `uint8_t` member takes the low 8 bits of `type`. -/
def update_sampler (h : Host) (current_cycle : Nat) (s : State)
    (cpu set full_addr ip type : Nat) : State :=
  let s_idx := find set s.ship_rand_sets
  if s_idx ≠ s.ship_rand_sets.length then
    let s_set := (s.sampler.drop s_idx).take h.NUM_WAY
    let m := find_if (h.eq_addr full_addr (8 + h.lg2 h.NUM_WAY)) s_set
    if m ≠ s_set.length then
      let e := s.sampler.getD (s_idx + m) {}
      let SHCT_idx := e.ip % SHCT_PRIME
      let shct :=
        if s.SHCT cpu SHCT_idx > 0 then
          Function.update s.SHCT cpu
            (Function.update (s.SHCT cpu) SHCT_idx (s.SHCT cpu SHCT_idx - 1))
        else s.SHCT
      let e := { e with type := type % 256, used := 1 }
      let e := { e with last_used := current_cycle }
      { s with SHCT := shct, sampler := s.sampler.set (s_idx + m) e }
    else
      let m := min_element s_set
      let e := s.sampler.getD (s_idx + m) {}
      let shct :=
        if e.used ≠ 0 then
          let SHCT_idx := e.ip % SHCT_PRIME
          if s.SHCT cpu SHCT_idx < SHCT_MAX then
            Function.update s.SHCT cpu
              (Function.update (s.SHCT cpu) SHCT_idx (s.SHCT cpu SHCT_idx + 1))
          else s.SHCT
        else s.SHCT
      let e :=
        { e with valid := true, address := full_addr, ip := ip, type := type % 256, used := 0 }
      let e := { e with last_used := current_cycle }
      { s with SHCT := shct, sampler := s.sampler.set (s_idx + m) e }
  else s

/-- The function `CACHE::update_replacement_state(cpu, set, way, full_addr, ip,
victim_addr, type, hit)`; `current_cycle` is the member the body reads, and
`if (hit)` tests `hit ≠ 0`. -/
def update_replacement_state (h : Host) (current_cycle : Nat) (s : State)
    (cpu set way full_addr ip victim_addr type hit : Nat) : State :=
  if type = h.WRITE then
    if hit = 0 then
      { s with ship_rrpv_values := s.ship_rrpv_values.set (set * h.NUM_WAY + way) (maxRRPV - 1) }
    else s
  else
    let s := update_sampler h current_cycle s cpu set full_addr ip type
    if hit ≠ 0 then
      { s with ship_rrpv_values := s.ship_rrpv_values.set (set * h.NUM_WAY + way) 0 }
    else
      let SHCT_idx := ip % SHCT_PRIME
      let rrpv := s.ship_rrpv_values.set (set * h.NUM_WAY + way) (maxRRPV - 1)
      if s.SHCT cpu SHCT_idx = SHCT_MAX then
        { s with ship_rrpv_values := rrpv.set (set * h.NUM_WAY + way) maxRRPV }
      else { s with ship_rrpv_values := rrpv }

/-! ## Auxiliary definitions for the statements -/

/-- The result of `k` aging passes over `set`. -/
def aged (h : Host) (rrpv : List Int) (set k : Nat) : List Int :=
  rrpv.take (set * h.NUM_WAY) ++ (rrpv_set h rrpv set).map (fun x => x + (k : Int))
    ++ rrpv.drop (set * h.NUM_WAY + h.NUM_WAY)

/-- The reachable-state invariant on the RRPV table: every slot holds a value
in `[0, maxRRPV]`. -/
def rrpv_in_range (s : State) : Prop :=
  ∀ x ∈ s.ship_rrpv_values, 0 ≤ x ∧ x ≤ maxRRPV

/-- The range `[s_set_begin, s_set_end)` that `update_replacement_state`
searches for `set` (lines 87-90). -/
def sampler_range (h : Host) (s : State) (set : Nat) : List SAMPLER_class :=
  (s.sampler.drop (find set s.ship_rand_sets)).take h.NUM_WAY

/-- One call of `update_replacement_state` with the value of `current_cycle`
at the time of the call. -/
structure Access where
  current_cycle : Nat
  cpu : Nat
  set : Nat
  way : Nat
  full_addr : Nat
  ip : Nat
  victim_addr : Nat
  type : Nat
  hit : Nat
deriving DecidableEq, Repr

/-- The call described by `a`. -/
def apply_access (h : Host) (s : State) (a : Access) : State :=
  update_replacement_state h a.current_cycle s a.cpu a.set a.way a.full_addr a.ip a.victim_addr
    a.type a.hit

/-- A finite sequence of `update_replacement_state` calls. -/
def run (h : Host) (s : State) (calls : List Access) : State :=
  calls.foldl (apply_access h) s

/-! ## Example configurations -/

/-- An instance of the host's `eq_addr` functor: a valid entry whose address
agrees with `val` above the low `shamt` bits. -/
def ex_eq_addr (val shamt : Nat) (e : SAMPLER_class) : Bool :=
  e.valid && (e.address >>> shamt == val >>> shamt)

/-- An instance of the host's `lg2`: the number of halvings that bring `n` down
to 1, computed with `fuel` steps. -/
def ex_lg2_loop : Nat → Nat → Nat
  | 0, _ => 0
  | fuel + 1, n => if n ≤ 1 then 0 else 1 + ex_lg2_loop fuel (n / 2)

/-- Base-2 logarithm, rounded down (`0` at `0`). -/
def ex_lg2 (n : Nat) : Nat := ex_lg2_loop n n

/-- A host with 2048 sets, 4 ways and one core; `WRITE` is access type 3. -/
def ex_host : Host :=
  { NUM_SET := 2048, NUM_WAY := 4, NUM_CPUS := 1, WRITE := 3, lg2 := ex_lg2,
    eq_addr := ex_eq_addr }

/-- The sampled-sets list that `initialize_replacement` computes for `ex_host`. -/
def ex_sets : List Nat :=
  [1, 6, 9, 13, 15, 19, 47, 51, 67, 70, 71, 79, 90, 94, 96, 98, 100, 102, 104, 126, 143, 158,
    169, 172, 177, 183, 187, 195, 204, 217, 227, 228, 230, 238, 245, 258, 275, 283, 297, 319,
    329, 331, 338, 342, 355, 399, 404, 415, 416, 417, 421, 446, 453, 454, 466, 472, 479, 482,
    490, 491, 513, 534, 541, 554, 559, 561, 569, 601, 607, 626, 633, 635, 640, 645, 647, 648,
    656, 661, 668, 671, 672, 682, 686, 695, 701, 703, 711, 732, 739, 767, 769, 773, 823, 829,
    838, 846, 850, 851, 852, 856, 857, 875, 881, 882, 886, 892, 904, 911, 920, 933, 938, 939,
    965, 967, 973, 979, 981, 986, 990, 993, 1018, 1030, 1036, 1037, 1039, 1057, 1060, 1061,
    1075, 1092, 1106, 1115, 1117, 1127, 1131, 1133, 1136, 1139, 1152, 1159, 1160, 1166, 1171,
    1190, 1191, 1201, 1243, 1249, 1267, 1274, 1275, 1289, 1291, 1293, 1297, 1303, 1309, 1311,
    1315, 1317, 1329, 1338, 1340, 1352, 1365, 1367, 1374, 1382, 1383, 1389, 1392, 1406, 1413,
    1414, 1415, 1422, 1423, 1446, 1448, 1450, 1461, 1462, 1466, 1477, 1487, 1495, 1496, 1498,
    1500, 1504, 1505, 1508, 1531, 1545, 1568, 1582, 1586, 1590, 1608, 1611, 1613, 1622, 1628,
    1632, 1637, 1649, 1652, 1657, 1660, 1662, 1680, 1681, 1682, 1688, 1693, 1702, 1704, 1705,
    1707, 1708, 1712, 1714, 1727, 1728, 1730, 1738, 1763, 1770, 1782, 1787, 1792, 1818, 1820,
    1822, 1846, 1851, 1852, 1854, 1857, 1863, 1874, 1876, 1878, 1881, 1904, 1905, 1908, 1912,
    1921, 1932, 1933, 1945, 1954, 1982, 2038, 2041]

/-- The state of `ex_host` after `initialize_replacement`. -/
def ex_init_state : State :=
  { ship_rand_sets := ex_sets
    sampler := List.replicate (SAMPLER_SET ex_host * ex_host.NUM_WAY) {}
    ship_rrpv_values := List.replicate (ex_host.NUM_SET * ex_host.NUM_WAY) maxRRPV
    SHCT := fun _ _ => 0 }

/-- Four load misses (type 0) of core 0 that fill the ways of set 0, which is
not sampled, at cycles 1 to 4. -/
def ex_fills : List Access :=
  [{ current_cycle := 1, cpu := 0, set := 0, way := 0, full_addr := 131072, ip := 256,
      victim_addr := 0, type := 0, hit := 0 },
    { current_cycle := 2, cpu := 0, set := 0, way := 1, full_addr := 262144, ip := 260,
      victim_addr := 0, type := 0, hit := 0 },
    { current_cycle := 3, cpu := 0, set := 0, way := 2, full_addr := 393216, ip := 264,
      victim_addr := 0, type := 0, hit := 0 },
    { current_cycle := 4, cpu := 0, set := 0, way := 3, full_addr := 524288, ip := 268,
      victim_addr := 0, type := 0, hit := 0 }]

/-- The state of `ex_host` after initialisation and the fills `ex_fills`: the
slots of set 0 hold `2, 2, 2, 2`, every other slot holds `maxRRPV`. -/
def ex_full_state : State :=
  run ex_host ex_init_state ex_fills

/-- The state of `ex_host` after initialisation and one load miss of core 0, at
cycle 1, to address 131136 with signature 256, filled into way 0 of set 1.
Set 1 is sampled: the access is a sampler miss and installs a sampler entry. -/
def ex_sampled_state : State :=
  update_replacement_state ex_host 1 ex_init_state 0 1 0 131136 256 0 0 0

/-- Calls on `ex_host` after initialisation: the fills of set 0, then in the
sampled set 1 a load miss, a load hit on the same line and a write miss. -/
def ex_calls : List Access :=
  ex_fills ++
    [{ current_cycle := 5, cpu := 0, set := 1, way := 0, full_addr := 131136, ip := 256,
        victim_addr := 0, type := 0, hit := 0 },
      { current_cycle := 6, cpu := 0, set := 1, way := 0, full_addr := 131136, ip := 300,
        victim_addr := 0, type := 0, hit := 1 },
      { current_cycle := 7, cpu := 0, set := 1, way := 1, full_addr := 262208, ip := 304,
        victim_addr := 0, type := 3, hit := 0 }]

/-- The state `ex_init_state` with every counter of core 1 saturated: it
differs from `ex_init_state` in the SHCT array of core 1 only. -/
def ex_other_core_state : State :=
  { ex_init_state with SHCT := fun c _ => if c = 1 then SHCT_MAX else 0 }

/-- A load (type 0) of core 0 with signature 256 (0x100). -/
def ex_load (current_cycle set way full_addr hit : Nat) : Access :=
  { current_cycle := current_cycle, cpu := 0, set := set, way := way, full_addr := full_addr,
    ip := 256, victim_addr := 0, type := 0, hit := hit }

/-- Eight loads in the sampled set 1 (position 0 of `ex_sets`): four misses
that fill the four ways with four lines, then a hit on each of the lines. -/
def ex_warm_calls : List Access :=
  [ex_load 1 1 0 131136 0, ex_load 2 1 1 262208 0, ex_load 3 1 2 393280 0,
    ex_load 4 1 3 524352 0, ex_load 5 1 0 131136 1, ex_load 6 1 1 262208 1,
    ex_load 7 1 2 393280 1, ex_load 8 1 3 524352 1]

/-- The state of `ex_host` after initialisation and the calls `ex_warm_calls`:
the four entries of the sampler range of set 1 hold signature 256 and have
their used flag set. -/
def ex_used_state : State :=
  run ex_host ex_init_state ex_warm_calls

/-- The calls `ex_warm_calls`, the same eight loads in the sampled set 15
(position 4 of `ex_sets`), then four misses on new lines in set 1 and three in
set 15, each of which evicts a sampler entry whose used flag is set. -/
def ex_saturating_calls : List Access :=
  ex_warm_calls ++
    [ex_load 9 15 0 132032 0, ex_load 10 15 1 263104 0, ex_load 11 15 2 394176 0,
      ex_load 12 15 3 525248 0, ex_load 13 15 0 132032 1, ex_load 14 15 1 263104 1,
      ex_load 15 15 2 394176 1, ex_load 16 15 3 525248 1,
      ex_load 17 1 0 655424 0, ex_load 18 1 1 786496 0, ex_load 19 1 2 917568 0,
      ex_load 20 1 3 1048640 0,
      ex_load 21 15 0 656320 0, ex_load 22 15 1 787392 0, ex_load 23 15 2 918464 0]

/-- The sampler entry that line 102 selects for `set`: the entry of the sampler
range of `set` with the smallest `last_used`, as `std::min_element` finds it. -/
def evicted_entry (h : Host) (s : State) (set : Nat) : SAMPLER_class :=
  s.sampler.getD (find set s.ship_rand_sets + min_element (sampler_range h s set)) {}

/-- The call `a`, made in state `s`, is a sampler miss: its type is not
`WRITE`, its set is sampled and no entry of the sampler range of the set
matches its address. -/
def is_sampler_miss (h : Host) (s : State) (a : Access) : Prop :=
  a.type ≠ h.WRITE ∧ a.set ∈ s.ship_rand_sets ∧
    find_if (h.eq_addr a.full_addr (8 + h.lg2 h.NUM_WAY)) (sampler_range h s a.set)
      = (sampler_range h s a.set).length

/-- The call `a`, made in state `s`, is a sampler miss that evicts a sampler
entry whose used flag is clear. -/
def evicts_unused (h : Host) (s : State) (a : Access) : Prop :=
  is_sampler_miss h s a ∧ (evicted_entry h s a.set).used = 0

/-- The call `a`, made in state `s`, is a sampler miss that evicts a sampler
entry whose used flag is set. -/
def evicts_used (h : Host) (s : State) (a : Access) : Prop :=
  is_sampler_miss h s a ∧ (evicted_entry h s a.set).used ≠ 0

/-- Every call of the sequence, made in the state that the calls before it
lead to from `s`, is a sampler miss that evicts an entry whose used flag is
clear. -/
def all_evict_unused (h : Host) : State → List Access → Prop
  | _, [] => True
  | s, a :: rest => evicts_unused h s a ∧ all_evict_unused h (apply_access h s a) rest

/-- Every call of the sequence, made in the state that the calls before it
lead to from `s`, is a sampler miss that evicts an entry whose used flag is
set. -/
def all_evict_used (h : Host) : State → List Access → Prop
  | _, [] => True
  | s, a :: rest => evicts_used h s a ∧ all_evict_used h (apply_access h s a) rest

/-- The property `evicts_unused` can be decided by evaluation. -/
instance evicts_unused_decidable (h : Host) (s : State) (a : Access) :
    Decidable (evicts_unused h s a) :=
  inferInstanceAs (Decidable
    ((a.type ≠ h.WRITE ∧ a.set ∈ s.ship_rand_sets ∧
      find_if (h.eq_addr a.full_addr (8 + h.lg2 h.NUM_WAY)) (sampler_range h s a.set)
        = (sampler_range h s a.set).length) ∧ (evicted_entry h s a.set).used = 0))

/-- The property `evicts_used` can be decided by evaluation. -/
instance evicts_used_decidable (h : Host) (s : State) (a : Access) :
    Decidable (evicts_used h s a) :=
  inferInstanceAs (Decidable
    ((a.type ≠ h.WRITE ∧ a.set ∈ s.ship_rand_sets ∧
      find_if (h.eq_addr a.full_addr (8 + h.lg2 h.NUM_WAY)) (sampler_range h s a.set)
        = (sampler_range h s a.set).length) ∧ (evicted_entry h s a.set).used ≠ 0))

/-- The property `all_evict_used` can be decided by evaluation, call by call. -/
instance all_evict_used_decidable (h : Host) :
    (s : State) → (calls : List Access) → Decidable (all_evict_used h s calls)
  | _, [] => isTrue trivial
  | s, a :: rest =>
    @instDecidableAnd _ _ (evicts_used_decidable h s a)
      (all_evict_used_decidable h (apply_access h s a) rest)

/-- The largest value of a non-empty range (`0` on an empty one). -/
def range_max : List Int → Int
  | [] => 0
  | x :: xs => xs.foldl max x

/-- The reference for `find_victim`, in the words of the claim: with `m` the
largest RRPV of the set, it returns the lowest way whose RRPV equals `m` and
adds `maxRRPV - m` to every slot of the set; the slots of the other sets, the
sampler and the SHCT stay as they are. -/
def find_victim_reference (h : Host) (s : State) (set : Nat) : Nat × State :=
  let m := range_max (rrpv_set h s.ship_rrpv_values set)
  (find m (rrpv_set h s.ship_rrpv_values set),
    { s with
      ship_rrpv_values :=
        s.ship_rrpv_values.take (set * h.NUM_WAY)
          ++ (rrpv_set h s.ship_rrpv_values set).map (fun x => x + (maxRRPV - m))
          ++ s.ship_rrpv_values.drop (set * h.NUM_WAY + h.NUM_WAY) })

/-- A host with fewer sets than sampled sets: 128 sets, 4 ways, one core. -/
def ex_small_host : Host :=
  { NUM_SET := 128, NUM_WAY := 4, NUM_CPUS := 1, WRITE := 3, lg2 := ex_lg2,
    eq_addr := ex_eq_addr }

/-- The state of `ex_host` after initialisation and the calls
`ex_saturating_calls`: the counter of core 0 for signature 256 is `SHCT_MAX`. -/
def ex_saturated_state : State :=
  run ex_host ex_init_state ex_saturating_calls

/-! # Lemmas -/

/-! ## Lemmas on the standard-library algorithms -/

theorem find_if_le_length {α : Type} (p : α → Bool) (l : List α) :
    find_if p l ≤ l.length := by
  induction l with
  | nil => simp [find_if]
  | cons x xs ih =>
    simp only [find_if, List.length_cons]
    split <;> omega

theorem find_if_eq_length_iff {α : Type} (p : α → Bool) (l : List α) :
    find_if p l = l.length ↔ ∀ x ∈ l, p x = false := by
  induction l with
  | nil => simp [find_if]
  | cons x xs ih =>
    simp only [find_if, List.length_cons, List.mem_cons, forall_eq_or_imp]
    by_cases hx : p x = true
    · simp [hx]
    · simp only [hx, Bool.false_eq_true, if_false, Nat.add_right_cancel_iff, ih]
      simp at hx
      simp [hx]

theorem find_if_spec {α : Type} (p : α → Bool) (l : List α) (hlt : find_if p l < l.length) :
    ∃ x, l[find_if p l]? = some x ∧ p x = true := by
  induction l with
  | nil => simp [find_if] at hlt
  | cons x xs ih =>
    simp only [find_if, List.length_cons] at hlt ⊢
    by_cases hx : p x = true
    · simp [hx]
    · simp only [hx, Bool.false_eq_true, if_false] at hlt ⊢
      have := ih (by omega)
      simpa using this

theorem find_if_first {α : Type} (p : α → Bool) (l : List α) (j : Nat) (hj : j < find_if p l) :
    ∃ x, l[j]? = some x ∧ p x = false := by
  induction l generalizing j with
  | nil => simp [find_if] at hj
  | cons x xs ih =>
    simp only [find_if] at hj
    by_cases hx : p x = true
    · simp [hx] at hj
    · simp only [hx, Bool.false_eq_true, if_false] at hj
      cases j with
      | zero => simp at hx; simp [hx]
      | succ j =>
        have := ih j (by omega)
        simpa using this

theorem find_if_map {α β : Type} (f : α → β) (p : β → Bool) (l : List α) :
    find_if p (l.map f) = find_if (fun x => p (f x)) l := by
  induction l with
  | nil => simp [find_if]
  | cons x xs ih => simp [find_if, ih]

theorem find_if_congr {α : Type} (p q : α → Bool) (l : List α) (hpq : ∀ x, p x = q x) :
    find_if p l = find_if q l := by
  have : p = q := funext hpq
  rw [this]

theorem find_lt_length_of_mem {α : Type} [DecidableEq α] (v : α) (l : List α) (hv : v ∈ l) :
    find v l < l.length := by
  have h1 := find_if_le_length (fun x => decide (x = v)) l
  have h2 : find v l ≠ l.length := by
    intro h
    have := (find_if_eq_length_iff _ l).mp h v hv
    simp at this
  unfold find at *
  omega

theorem find_spec {α : Type} [DecidableEq α] (v : α) (l : List α) (hlt : find v l < l.length) :
    l[find v l]? = some v := by
  obtain ⟨x, hx, hp⟩ := find_if_spec _ l hlt
  simp at hp
  unfold find
  rw [hx, hp]



/-! ## Lemmas on `find_victim` -/

theorem rrpv_set_length (h : Host) (rrpv : List Int) (set : Nat)
    (hlen : set * h.NUM_WAY + h.NUM_WAY ≤ rrpv.length) :
    (rrpv_set h rrpv set).length = h.NUM_WAY := by
  simp [rrpv_set]
  omega

/-- The table is the slots before the set, the set, and the slots after it. -/
theorem rrpv_split (h : Host) (rrpv : List Int) (set : Nat) :
    rrpv = rrpv.take (set * h.NUM_WAY) ++ rrpv_set h rrpv set
      ++ rrpv.drop (set * h.NUM_WAY + h.NUM_WAY) := by
  unfold rrpv_set
  rw [List.append_assoc, ← List.drop_drop, List.take_append_drop, List.take_append_drop]

theorem slice_mid {α : Type} (A xs ys : List α) (b n : Nat) (hA : A.length = b)
    (hxs : xs.length = n) : ((A ++ xs ++ ys).drop b).take n = xs := by
  subst hA hxs
  simp

theorem slice_left {α : Type} (A xs ys : List α) (b : Nat) (hA : A.length = b) :
    (A ++ xs ++ ys).take b = A := by
  subst hA
  simp

theorem slice_right {α : Type} (A xs ys : List α) (b n : Nat) (hA : A.length = b)
    (hxs : xs.length = n) : (A ++ xs ++ ys).drop (b + n) = ys := by
  subst hA hxs
  rw [← List.length_append, List.drop_left]

/-- Writing `xs` over the slots of `set`. -/
theorem rrpv_set_replace (h : Host) (rrpv xs ys : List Int) (set : Nat)
    (hlen : set * h.NUM_WAY ≤ rrpv.length) (hxs : xs.length = h.NUM_WAY) :
    rrpv_set h (rrpv.take (set * h.NUM_WAY) ++ xs ++ ys) set = xs :=
  slice_mid _ _ _ _ _ (by simp; omega) hxs

theorem take_replace (h : Host) (rrpv xs ys : List Int) (set : Nat)
    (hlen : set * h.NUM_WAY ≤ rrpv.length) :
    (rrpv.take (set * h.NUM_WAY) ++ xs ++ ys).take (set * h.NUM_WAY)
      = rrpv.take (set * h.NUM_WAY) :=
  slice_left _ _ _ _ (by simp; omega)

theorem drop_replace (h : Host) (rrpv xs ys : List Int) (set : Nat)
    (hlen : set * h.NUM_WAY ≤ rrpv.length) (hxs : xs.length = h.NUM_WAY) :
    (rrpv.take (set * h.NUM_WAY) ++ xs ++ ys).drop (set * h.NUM_WAY + h.NUM_WAY) = ys :=
  slice_right _ _ _ _ _ (by simp; omega) hxs

theorem aged_zero (h : Host) (rrpv : List Int) (set : Nat) : aged h rrpv set 0 = rrpv := by
  unfold aged
  simp only [Nat.cast_zero, add_zero, List.map_id']
  exact (rrpv_split h rrpv set).symm

theorem aged_age_set (h : Host) (rrpv : List Int) (set k : Nat)
    (hlen : set * h.NUM_WAY + h.NUM_WAY ≤ rrpv.length) :
    aged h (age_set h rrpv set) set k = aged h rrpv set (k + 1) := by
  have hl := rrpv_set_length h rrpv set hlen
  unfold aged age_set
  rw [rrpv_set_replace h rrpv _ _ set (by omega) (by simpa using hl),
    take_replace h rrpv _ _ set (by omega),
    drop_replace h rrpv _ _ set (by omega) (by simpa using hl), List.map_map]
  congr 2
  apply List.map_congr_left
  intro x _
  simp only [Function.comp_apply, Nat.cast_add, Nat.cast_one]
  ring

theorem age_set_length (h : Host) (rrpv : List Int) (set : Nat) :
    (age_set h rrpv set).length = rrpv.length := by
  conv_rhs => rw [rrpv_split h rrpv set]
  simp [age_set]

/-- Exact behaviour of the aging loop: when `k` is the distance of the largest
value of the set from `maxRRPV`, the loop makes exactly `k` passes. -/
theorem find_victim_loop_eq (h : Host) (set k : Nat) :
    ∀ (fuel : Nat) (rrpv : List Int),
      set * h.NUM_WAY + h.NUM_WAY ≤ rrpv.length →
      (∀ x ∈ rrpv_set h rrpv set, x + (k : Int) ≤ maxRRPV) →
      (∃ x ∈ rrpv_set h rrpv set, x + (k : Int) = maxRRPV) →
      find_victim_loop h set fuel rrpv =
        if k ≤ fuel then
          some (find (maxRRPV - (k : Int)) (rrpv_set h rrpv set), aged h rrpv set k)
        else none := by
  induction k with
  | zero =>
    intro fuel rrpv _ _ hex
    obtain ⟨x, hx, hx3⟩ := hex
    simp only [Nat.cast_zero, add_zero] at hx3
    subst hx3
    have hlt := find_lt_length_of_mem _ _ hx
    unfold find_victim_loop
    simp only [Nat.cast_zero, sub_zero, Nat.zero_le, if_true, aged_zero]
    rw [if_neg (by omega)]
  | succ k ih =>
    intro fuel rrpv hlen hall hex
    have hnone : find maxRRPV (rrpv_set h rrpv set) = (rrpv_set h rrpv set).length := by
      unfold find
      rw [find_if_eq_length_iff]
      intro x hx
      have := hall x hx
      simp only [decide_eq_false_iff_not]
      intro hx3
      rw [hx3] at this
      push_cast at this
      omega
    unfold find_victim_loop
    simp only [hnone, if_true]
    cases fuel with
    | zero => simp
    | succ fuel =>
      simp only
      have hl := rrpv_set_length h rrpv set hlen
      have hslice : rrpv_set h (age_set h rrpv set) set
          = (rrpv_set h rrpv set).map (fun x => x + 1) := by
        unfold age_set
        exact rrpv_set_replace h rrpv _ _ set (by omega) (by simpa using hl)
      rw [ih fuel (age_set h rrpv set) (by rw [age_set_length]; exact hlen)
        (by
          rw [hslice]
          intro y hy
          obtain ⟨x, hx, rfl⟩ := List.mem_map.mp hy
          have := hall x hx
          push_cast at this
          omega)
        (by
          rw [hslice]
          obtain ⟨x, hx, hx3⟩ := hex
          refine ⟨x + 1, List.mem_map.mpr ⟨x, hx, rfl⟩, ?_⟩
          push_cast at hx3
          omega)]
      rw [aged_age_set h rrpv set k hlen, hslice]
      have hfind : find (maxRRPV - (k : Int)) ((rrpv_set h rrpv set).map (fun x => x + 1))
          = find (maxRRPV - ((k + 1 : Nat) : Int)) (rrpv_set h rrpv set) := by
        unfold find
        rw [find_if_map]
        apply find_if_congr
        intro x
        push_cast
        apply decide_eq_decide.mpr
        constructor <;> intro hh <;> omega
      rw [hfind]
      simp only [Nat.add_le_add_iff_right]

theorem rrpv_set_getElem? (h : Host) (rrpv : List Int) (set w : Nat) (hw : w < h.NUM_WAY) :
    (rrpv_set h rrpv set)[w]? = rrpv[set * h.NUM_WAY + w]? := by
  unfold rrpv_set
  rw [List.getElem?_take_of_lt hw, List.getElem?_drop]

theorem aged_length (h : Host) (rrpv : List Int) (set k : Nat) :
    (aged h rrpv set k).length = rrpv.length := by
  conv_rhs => rw [rrpv_split h rrpv set]
  simp [aged]

theorem rrpv_set_aged (h : Host) (rrpv : List Int) (set k : Nat)
    (hlen : set * h.NUM_WAY + h.NUM_WAY ≤ rrpv.length) :
    rrpv_set h (aged h rrpv set k) set
      = (rrpv_set h rrpv set).map (fun x => x + (k : Int)) := by
  have hl := rrpv_set_length h rrpv set hlen
  unfold aged
  exact rrpv_set_replace h rrpv _ _ set (by omega) (by simpa using hl)

/-- Membership in the aged table: a slot of the set moved up by `k`, or a slot
of the old table. -/
theorem mem_aged (h : Host) (rrpv : List Int) (set k : Nat) (y : Int)
    (hy : y ∈ aged h rrpv set k) :
    (∃ x ∈ rrpv_set h rrpv set, y = x + (k : Int)) ∨ y ∈ rrpv := by
  unfold aged at hy
  simp only [List.mem_append, List.mem_map] at hy
  rcases hy with (hy | ⟨x, hx, rfl⟩) | hy
  · exact Or.inr (List.mem_of_mem_take hy)
  · exact Or.inl ⟨x, hx, rfl⟩
  · exact Or.inr (List.mem_of_mem_drop hy)

theorem mem_rrpv_set (h : Host) (rrpv : List Int) (set : Nat) (x : Int)
    (hx : x ∈ rrpv_set h rrpv set) : x ∈ rrpv :=
  List.mem_of_mem_drop (List.mem_of_mem_take hx)

/-- A non-empty range of values in `[0, maxRRPV]` has a largest value; `k` is
its distance from `maxRRPV`. -/
theorem exists_distance (l : List Int) (hne : l ≠ [])
    (hrange : ∀ x ∈ l, 0 ≤ x ∧ x ≤ maxRRPV) :
    ∃ k : Nat, k ≤ 3 ∧ (∀ x ∈ l, x + (k : Int) ≤ maxRRPV) ∧
      ∃ x ∈ l, x + (k : Int) = maxRRPV := by
  induction l with
  | nil => exact absurd rfl hne
  | cons a t ih =>
    have ha := hrange a (List.mem_cons_self a t)
    unfold maxRRPV at *
    by_cases ht : t = []
    · subst ht
      refine ⟨(3 - a).toNat, by omega, ?_, a, List.mem_cons_self a _, by omega⟩
      intro x hx
      simp only [List.mem_singleton] at hx
      subst hx
      omega
    · obtain ⟨k, hk3, hall, x, hx, hxk⟩ :=
        ih ht (fun x hx => hrange x (List.mem_cons_of_mem a hx))
      by_cases hak : a + (k : Int) ≤ 3
      · refine ⟨k, hk3, ?_, x, List.mem_cons_of_mem a hx, hxk⟩
        intro y hy
        rcases List.mem_cons.mp hy with rfl | hy
        · exact hak
        · exact hall y hy
      · refine ⟨(3 - a).toNat, by omega, ?_, a, List.mem_cons_self a _, by omega⟩
        intro y hy
        rcases List.mem_cons.mp hy with rfl | hy
        · omega
        · have := hall y hy
          omega

/-- The aging loop on a set with values in `[0, maxRRPV]`: it makes `k ≤ 3`
passes, returns a way of the set, and the slot of that way holds `maxRRPV`
in the table it leaves, which is the old table with `k` added to the set. -/
theorem find_victim_loop_spec (h : Host) (rrpv : List Int) (set : Nat)
    (hway : 1 ≤ h.NUM_WAY)
    (hlen : set * h.NUM_WAY + h.NUM_WAY ≤ rrpv.length)
    (hrange : ∀ x ∈ rrpv_set h rrpv set, 0 ≤ x ∧ x ≤ maxRRPV) :
    ∃ k w : Nat, k ≤ 3 ∧ w < h.NUM_WAY ∧
      (∀ fuel, find_victim_loop h set fuel rrpv
        = if k ≤ fuel then some (w, aged h rrpv set k) else none) ∧
      (aged h rrpv set k)[set * h.NUM_WAY + w]? = some maxRRPV ∧
      (∀ x ∈ rrpv_set h rrpv set, x + (k : Int) ≤ maxRRPV) := by
  have hl := rrpv_set_length h rrpv set hlen
  have hne : rrpv_set h rrpv set ≠ [] := by
    intro h0
    rw [h0] at hl
    simp at hl
    omega
  obtain ⟨k, hk3, hall, hex⟩ := exists_distance _ hne hrange
  have hmem : maxRRPV - (k : Int) ∈ rrpv_set h rrpv set := by
    obtain ⟨x, hx, hxk⟩ := hex
    have : maxRRPV - (k : Int) = x := by omega
    rw [this]
    exact hx
  have hw := find_lt_length_of_mem _ _ hmem
  refine ⟨k, find (maxRRPV - (k : Int)) (rrpv_set h rrpv set), hk3, by omega, ?_, ?_, hall⟩
  · intro fuel
    exact find_victim_loop_eq h set k fuel rrpv hlen hall hex
  · rw [← rrpv_set_getElem? h _ set _ (by omega), rrpv_set_aged h rrpv set k hlen,
      List.getElem?_map, find_spec _ _ hw]
    simp


/-! ## Frame lemmas on `update_replacement_state` -/

theorem update_sampler_rrpv (h : Host) (cc : Nat) (s : State) (cpu set full_addr ip type : Nat) :
    (update_sampler h cc s cpu set full_addr ip type).ship_rrpv_values = s.ship_rrpv_values := by
  unfold update_sampler
  simp only
  split
  · split <;> rfl
  · rfl

theorem update_sampler_rand_sets (h : Host) (cc : Nat) (s : State)
    (cpu set full_addr ip type : Nat) :
    (update_sampler h cc s cpu set full_addr ip type).ship_rand_sets = s.ship_rand_sets := by
  unfold update_sampler
  simp only
  split
  · split <;> rfl
  · rfl

/-- The SHCT after a non-write access is the SHCT after its sampler step. -/
theorem update_SHCT_of_ne_write (h : Host) (cc : Nat) (s : State)
    (cpu set way full_addr ip victim_addr type hit : Nat) (ht : type ≠ h.WRITE) :
    (update_replacement_state h cc s cpu set way full_addr ip victim_addr type hit).SHCT
      = (update_sampler h cc s cpu set full_addr ip type).SHCT := by
  unfold update_replacement_state
  simp only [if_neg ht]
  split
  · rfl
  · split <;> rfl

/-- The RRPV table after a call: one write of `0`, `maxRRPV - 1` or `maxRRPV`
to the slot of `(set, way)`, or no write at all (a write-type hit). -/
theorem update_rrpv_cases (h : Host) (cc : Nat) (s : State)
    (cpu set way full_addr ip victim_addr type hit : Nat) :
    (update_replacement_state h cc s cpu set way full_addr ip victim_addr type hit).ship_rrpv_values
        = s.ship_rrpv_values ∨
      ∃ v : Int, (v = 0 ∨ v = maxRRPV - 1 ∨ v = maxRRPV) ∧
        (update_replacement_state h cc s cpu set way full_addr ip victim_addr type
            hit).ship_rrpv_values
          = s.ship_rrpv_values.set (set * h.NUM_WAY + way) v := by
  unfold update_replacement_state
  simp only
  split
  · split
    · exact Or.inr ⟨maxRRPV - 1, Or.inr (Or.inl rfl), rfl⟩
    · exact Or.inl rfl
  · split
    · exact Or.inr ⟨0, Or.inl rfl, by simp only [update_sampler_rrpv]⟩
    · split
      · exact Or.inr ⟨maxRRPV, Or.inr (Or.inr rfl), by
          simp only [update_sampler_rrpv, List.set_set]⟩
      · exact Or.inr ⟨maxRRPV - 1, Or.inr (Or.inl rfl), by simp only [update_sampler_rrpv]⟩

theorem initialize_rrpv (h : Host) (fuel : Nat) (s : State)
    (hs : initialize_replacement h fuel = some s) :
    s.ship_rrpv_values = List.replicate (h.NUM_SET * h.NUM_WAY) maxRRPV := by
  unfold initialize_replacement at hs
  split at hs
  · exact absurd hs (by simp)
  · simp only [Option.some.injEq] at hs
    rw [← hs]


/-! ## Evaluation of the example configurations -/

set_option maxRecDepth 1000000 in
/-- The `for` loop of the initialisation of `ex_host`, evaluated: with fuel 3 it
completes with the list `ex_sets`. -/
theorem ex_host_sample_loop :
    sample_loop 2048 3 256 (1103515245 + 12345) [] = some (4636030300523717855, ex_sets) := by
  decide!

/-- The state that initialisation returns, from the result of its `for` loop. -/
theorem initialize_of_sample_loop (h : Host) (fuel seed : Nat) (sets : List Nat)
    (hloop : sample_loop h.NUM_SET fuel (SAMPLER_SET h) (1103515245 + 12345) []
      = some (seed, sets)) :
    initialize_replacement h fuel = some
      { ship_rand_sets := sets
        sampler := List.replicate (SAMPLER_SET h * h.NUM_WAY) {}
        ship_rrpv_values := List.replicate (h.NUM_SET * h.NUM_WAY) maxRRPV
        SHCT := fun _ _ => 0 } := by
  unfold initialize_replacement
  rw [hloop]

/-- Initialisation of `ex_host` completes with fuel 3, in `ex_init_state`. -/
theorem ex_host_initializes : initialize_replacement ex_host 3 = some ex_init_state :=
  initialize_of_sample_loop ex_host 3 4636030300523717855 ex_sets ex_host_sample_loop

/-- A write-type miss is one write of `maxRRPV - 1` to the slot. -/
theorem update_write_miss (h : Host) (cc : Nat) (s : State)
    (cpu set way full_addr ip victim_addr : Nat) :
    update_replacement_state h cc s cpu set way full_addr ip victim_addr h.WRITE 0
      = { s with
          ship_rrpv_values := s.ship_rrpv_values.set (set * h.NUM_WAY + way) (maxRRPV - 1) } := by
  unfold update_replacement_state
  simp only [if_true]

/-! ## The SHCT range -/

theorem update_sampler_SHCT_le (h : Host) (cc : Nat) (s : State)
    (cpu set full_addr ip type : Nat) (hinv : ∀ c i, s.SHCT c i ≤ SHCT_MAX) :
    ∀ c i, (update_sampler h cc s cpu set full_addr ip type).SHCT c i ≤ SHCT_MAX := by
  intro c i
  have hupd : ∀ (j v : Nat), v ≤ SHCT_MAX →
      Function.update s.SHCT cpu (Function.update (s.SHCT cpu) j v) c i ≤ SHCT_MAX := by
    intro j v hv
    by_cases hc : c = cpu
    · subst hc
      rw [Function.update_same]
      by_cases hi : i = j
      · subst hi
        rw [Function.update_same]
        exact hv
      · rw [Function.update_noteq hi]
        exact hinv c i
    · rw [Function.update_noteq hc]
      exact hinv c i
  unfold update_sampler
  simp only
  split
  · split
    · simp only
      split
      · exact hupd _ _ (Nat.le_trans (Nat.sub_le _ _) (hinv _ _))
      · exact hinv c i
    · simp only
      split
      · split
        · rename_i hlt
          exact hupd _ _ hlt
        · exact hinv c i
      · exact hinv c i
  · exact hinv c i

theorem update_SHCT_le (h : Host) (cc : Nat) (s : State)
    (cpu set way full_addr ip victim_addr type hit : Nat)
    (hinv : ∀ c i, s.SHCT c i ≤ SHCT_MAX) :
    ∀ c i, (update_replacement_state h cc s cpu set way full_addr ip victim_addr type
      hit).SHCT c i ≤ SHCT_MAX := by
  by_cases ht : type = h.WRITE
  · unfold update_replacement_state
    simp only [if_pos ht]
    split <;> exact hinv
  · rw [update_SHCT_of_ne_write h cc s cpu set way full_addr ip victim_addr type hit ht]
    exact update_sampler_SHCT_le h cc s cpu set full_addr ip type hinv

theorem run_SHCT_le (h : Host) (calls : List Access) :
    ∀ s : State, (∀ c i, s.SHCT c i ≤ SHCT_MAX) →
      ∀ c i, (run h s calls).SHCT c i ≤ SHCT_MAX := by
  induction calls with
  | nil => intro s hinv; exact hinv
  | cons a rest ih =>
    intro s hinv
    unfold run
    rw [List.foldl_cons]
    exact ih (apply_access h s a) (update_SHCT_le h _ s _ _ _ _ _ _ _ _ hinv)


/-! ## The sampled-sets list -/

theorem insert_at_length (l : List Nat) (loc val : Nat) :
    (insert_at l loc val).length = l.length + 1 := by
  unfold insert_at
  simp only [List.length_append, List.length_take, List.length_cons, List.length_drop]
  omega

theorem mem_insert_at (l : List Nat) (loc val x : Nat) (hx : x ∈ insert_at l loc val) :
    x = val ∨ x ∈ l := by
  unfold insert_at at hx
  simp only [List.mem_append, List.mem_cons] at hx
  rcases hx with hx | hx | hx
  · exact Or.inr (List.mem_of_mem_take hx)
  · exact Or.inl hx
  · exact Or.inr (List.mem_of_mem_drop hx)

theorem mem_insert_at_self (l : List Nat) (loc val : Nat) : val ∈ insert_at l loc val := by
  unfold insert_at
  simp

theorem mem_insert_at_of_mem (l : List Nat) (loc val x : Nat) (hx : x ∈ l) :
    x ∈ insert_at l loc val := by
  unfold insert_at
  rw [← List.take_append_drop loc l] at hx
  simp only [List.mem_append, List.mem_cons] at hx ⊢
  tauto

/-- On a strictly ascending list, the test of the rejection loop
(`loc != end && *loc == val` with `loc = lower_bound val`) is membership. -/
theorem reject_test_iff_mem (val : Nat) (l : List Nat) (hs : l.Pairwise (· < ·)) :
    (lower_bound val l ≠ l.length ∧ l[lower_bound val l]? = some val) ↔ val ∈ l := by
  induction l with
  | nil => simp [lower_bound]
  | cons x xs ih =>
    rw [List.pairwise_cons] at hs
    unfold lower_bound
    by_cases hx : x < val
    · simp only [if_pos hx, List.length_cons, ne_eq, Nat.add_right_cancel_iff,
        List.getElem?_cons_succ, List.mem_cons]
      rw [ih hs.2]
      constructor
      · exact Or.inr
      · rintro (rfl | hm)
        · omega
        · exact hm
    · simp only [if_neg hx, List.length_cons, ne_eq, List.getElem?_cons_zero, Option.some.injEq,
        List.mem_cons]
      constructor
      · rintro ⟨_, rfl⟩
        exact Or.inl rfl
      · rintro (rfl | hm)
        · exact ⟨by omega, rfl⟩
        · have := hs.1 val hm
          omega

/-- Inserting a value that is not in a strictly ascending list at its lower
bound keeps the list strictly ascending. -/
theorem insert_at_sorted (val : Nat) (l : List Nat) (hs : l.Pairwise (· < ·))
    (hnot : val ∉ l) : (insert_at l (lower_bound val l) val).Pairwise (· < ·) := by
  induction l with
  | nil => simp [insert_at, lower_bound]
  | cons x xs ih =>
    rw [List.pairwise_cons] at hs
    have hne : val ≠ x := fun hh => hnot (hh ▸ List.mem_cons_self _ _)
    have hnot' : val ∉ xs := fun hh => hnot (List.mem_cons_of_mem _ hh)
    unfold lower_bound
    by_cases hx : x < val
    · rw [if_pos hx]
      have hcons : insert_at (x :: xs) (lower_bound val xs + 1) val
          = x :: insert_at xs (lower_bound val xs) val := by
        simp [insert_at]
      rw [hcons, List.pairwise_cons]
      refine ⟨?_, ih hs.2 hnot'⟩
      intro y hy
      rcases mem_insert_at _ _ _ _ hy with rfl | hy
      · exact hx
      · exact hs.1 y hy
    · rw [if_neg hx]
      have hcons : insert_at (x :: xs) 0 val = val :: x :: xs := by
        simp [insert_at]
      rw [hcons, List.pairwise_cons, List.pairwise_cons]
      refine ⟨?_, hs⟩
      intro y hy
      rcases List.mem_cons.mp hy with rfl | hy
      · omega
      · have := hs.1 y hy
        omega

/-- What holds when the rejection loop exits: `val` and `loc` belong to the
final seed, and the loop test is false. -/
theorem reject_loop_exit (NUM_SET : Nat) (sets : List Nat) :
    ∀ (fuel rand_seed : Nat) (r : Nat × Nat × Nat),
      reject_loop NUM_SET sets fuel rand_seed (seed_val NUM_SET rand_seed)
        (lower_bound (seed_val NUM_SET rand_seed) sets) = some r →
      r.2.1 = seed_val NUM_SET r.1 ∧ r.2.2 = lower_bound r.2.1 sets ∧
        ¬ (r.2.2 ≠ sets.length ∧ sets[r.2.2]? = some r.2.1) := by
  intro fuel
  induction fuel with
  | zero =>
    intro seed r hr
    unfold reject_loop at hr
    split at hr
    · exact absurd hr (by simp)
    · rename_i hcond
      simp only [Option.some.injEq] at hr
      subst hr
      exact ⟨rfl, rfl, hcond⟩
  | succ fuel ih =>
    intro seed r hr
    unfold reject_loop at hr
    split at hr
    · exact ih (next_seed seed) r hr
    · rename_i hcond
      simp only [Option.some.injEq] at hr
      subst hr
      exact ⟨rfl, rfl, hcond⟩

/-- More fuel does not change the result of the rejection loop. -/
theorem reject_loop_mono (NUM_SET : Nat) (sets : List Nat) :
    ∀ (fuel fuel' rand_seed val loc : Nat) (r : Nat × Nat × Nat), fuel ≤ fuel' →
      reject_loop NUM_SET sets fuel rand_seed val loc = some r →
      reject_loop NUM_SET sets fuel' rand_seed val loc = some r := by
  intro fuel
  induction fuel with
  | zero =>
    intro fuel' seed val loc r _ hr
    unfold reject_loop at hr ⊢
    split at hr
    · exact absurd hr (by simp)
    · rename_i hcond
      rw [if_neg hcond]
      exact hr
  | succ fuel ih =>
    intro fuel' seed val loc r hle hr
    obtain ⟨f, rfl⟩ : ∃ f, fuel' = f + 1 := ⟨fuel' - 1, by omega⟩
    unfold reject_loop at hr ⊢
    split at hr
    · rename_i hcond
      rw [if_pos hcond]
      exact ih f _ _ _ r (by omega) hr
    · rename_i hcond
      rw [if_neg hcond]
      exact hr


/-- One iteration of the `for` loop, when its rejection loop exits: the value
inserted is not in the list, and it is inserted at its lower bound. -/
theorem sample_step (NUM_SET fuel rand_seed : Nat) (sets : List Nat) (r : Nat × Nat × Nat)
    (hs : sets.Pairwise (· < ·))
    (hr : reject_loop NUM_SET sets fuel rand_seed (seed_val NUM_SET rand_seed)
      (lower_bound (seed_val NUM_SET rand_seed) sets) = some r) :
    r.2.1 = seed_val NUM_SET r.1 ∧ r.2.1 ∉ sets ∧
      insert_at sets r.2.2 r.2.1 = insert_at sets (lower_bound r.2.1 sets) r.2.1 ∧
      (insert_at sets r.2.2 r.2.1).Pairwise (· < ·) := by
  obtain ⟨hval, hloc, hcond⟩ := reject_loop_exit NUM_SET sets fuel rand_seed r hr
  have hnot : r.2.1 ∉ sets := by
    rw [hloc] at hcond
    exact fun hm => hcond ((reject_test_iff_mem _ _ hs).mpr hm)
  refine ⟨hval, hnot, by rw [hloc], ?_⟩
  rw [hloc]
  exact insert_at_sorted _ _ hs hnot

/-- The list the `for` loop produces from a strictly ascending list is
strictly ascending and has one more entry per iteration. -/
theorem sample_loop_sorted (NUM_SET fuel : Nat) :
    ∀ (n rand_seed : Nat) (sets : List Nat) (r : Nat × List Nat), sets.Pairwise (· < ·) →
      sample_loop NUM_SET fuel n rand_seed sets = some r →
      r.2.Pairwise (· < ·) ∧ r.2.length = sets.length + n := by
  intro n
  induction n with
  | zero =>
    intro seed sets r hs hr
    unfold sample_loop at hr
    simp only [Option.some.injEq] at hr
    subst hr
    exact ⟨hs, rfl⟩
  | succ n ih =>
    intro seed sets r hs hr
    unfold sample_loop at hr
    simp only at hr
    split at hr
    · exact absurd hr (by simp)
    · rename_i seed' val' loc' heq
      obtain ⟨_, _, _, hsorted⟩ := sample_step NUM_SET fuel seed sets _ hs heq
      obtain ⟨h1, h2⟩ := ih seed' _ r hsorted hr
      refine ⟨h1, ?_⟩
      rw [h2, insert_at_length]
      omega

/-- More fuel does not change the result of the `for` loop. -/
theorem sample_loop_mono (NUM_SET fuel fuel' : Nat) (hle : fuel ≤ fuel') :
    ∀ (n rand_seed : Nat) (sets : List Nat) (r : Nat × List Nat),
      sample_loop NUM_SET fuel n rand_seed sets = some r →
      sample_loop NUM_SET fuel' n rand_seed sets = some r := by
  intro n
  induction n with
  | zero =>
    intro seed sets r hr
    unfold sample_loop at hr ⊢
    exact hr
  | succ n ih =>
    intro seed sets r hr
    unfold sample_loop at hr ⊢
    simp only at hr ⊢
    split at hr
    · exact absurd hr (by simp)
    · rename_i seed' val' loc' heq
      rw [reject_loop_mono NUM_SET sets fuel fuel' _ _ _ _ hle heq]
      exact ih seed' _ r hr

/-- The sampled-sets list does not depend on the fuel. -/
theorem sample_loop_fuel_irrelevant (NUM_SET fuel fuel' n rand_seed : Nat) (sets : List Nat)
    (r r' : Nat × List Nat) (hr : sample_loop NUM_SET fuel n rand_seed sets = some r)
    (hr' : sample_loop NUM_SET fuel' n rand_seed sets = some r') : r = r' := by
  have h1 := sample_loop_mono NUM_SET fuel (max fuel fuel') (le_max_left _ _) n rand_seed sets r hr
  have h2 :=
    sample_loop_mono NUM_SET fuel' (max fuel fuel') (le_max_right _ _) n rand_seed sets r' hr'
  rw [h1] at h2
  exact Option.some.inj h2

theorem initialize_rand_sets (h : Host) (fuel : Nat) (s : State)
    (hs : initialize_replacement h fuel = some s) :
    ∃ seed, sample_loop h.NUM_SET fuel (SAMPLER_SET h) (1103515245 + 12345) []
      = some (seed, s.ship_rand_sets) := by
  unfold initialize_replacement at hs
  split at hs
  · exact absurd hs (by simp)
  · rename_i seed sets heq
    simp only [Option.some.injEq] at hs
    rw [← hs]
    exact ⟨seed, heq⟩


/-! ## The generator has full period -/

/-- Lifting the exponent: `2 ^ 66` divides `1103515245 ^ k - 1` only when
`2 ^ 64` divides `k`. -/
theorem two_pow_dvd_of_dvd_pow_sub_one (k : Nat)
    (hk : (2 : ℤ) ^ 66 ∣ (1103515245 : ℤ) ^ k - 1) : 2 ^ 64 ∣ k := by
  have hlte := Int.two_pow_sub_pow' (x := 1103515245) (y := 1) k (by norm_num) (by norm_num)
  rw [one_pow] at hlte
  have h2 : emultiplicity (2 : ℤ) (1103515245 - 1) = 2 := by
    apply emultiplicity_eq_of_dvd_of_not_dvd <;> norm_num
  rw [h2] at hlte
  have h66 : ((66 : ℕ) : ℕ∞) ≤ emultiplicity (2 : ℤ) ((1103515245 : ℤ) ^ k - 1) :=
    le_emultiplicity_of_pow_dvd hk
  rw [hlte] at h66
  have h64 : ((64 : ℕ) : ℕ∞) ≤ emultiplicity (2 : ℤ) (k : ℤ) := by
    rcases h : emultiplicity (2 : ℤ) (k : ℤ) with _ | e
    · exact le_top
    · rw [h] at h66
      have : ((66 : ℕ) : ℕ∞) ≤ ((2 + e : ℕ) : ℕ∞) := by
        simpa using h66
      have := Nat.cast_le.mp this
      exact Nat.cast_le.mpr (by omega)
  have hdvd : (2 : ℤ) ^ 64 ∣ (k : ℤ) := pow_dvd_of_le_emultiplicity h64
  exact_mod_cast hdvd



theorem next_seed_lt (x : Nat) : next_seed x < 2 ^ 64 :=
  Nat.mod_lt _ (by norm_num)

theorem iterate_next_seed_lt (s : Nat) (hs : s < 2 ^ 64) (n : Nat) :
    next_seed^[n] s < 2 ^ 64 := by
  cases n with
  | zero => exact hs
  | succ n =>
    rw [Function.iterate_succ_apply']
    exact next_seed_lt _

/-- With `u = 1103515244 * s + 12345`, the `n`-th seed after `s` satisfies
`1103515244 * seed + 12345 = 1103515245 ^ n * u` modulo `2 ^ 66`. -/
theorem iterate_next_seed_closed (s n : Nat) :
    (1103515244 * (next_seed^[n] s : ℤ) + 12345) ≡
      1103515245 ^ n * (1103515244 * (s : ℤ) + 12345) [ZMOD 2 ^ 66] := by
  induction n with
  | zero => simp [Int.ModEq]
  | succ n ih =>
    rw [Function.iterate_succ_apply']
    generalize next_seed^[n] s = x at ih ⊢
    have hq : ((next_seed x : Nat) : ℤ) = (x : ℤ) * 1103515245 + 12345
        - 2 ^ 64 * (((x * 1103515245 + 12345) / 2 ^ 64 : Nat) : ℤ) := by
      have := Nat.mod_add_div (x * 1103515245 + 12345) (2 ^ 64)
      unfold next_seed
      have hz : (((x * 1103515245 + 12345) % 2 ^ 64 : Nat) : ℤ)
          + 2 ^ 64 * (((x * 1103515245 + 12345) / 2 ^ 64 : Nat) : ℤ)
          = (x : ℤ) * 1103515245 + 12345 := by
        exact_mod_cast this
      linarith
    have hstep : (1103515244 * ((next_seed x : Nat) : ℤ) + 12345) ≡
        1103515245 * (1103515244 * (x : ℤ) + 12345) [ZMOD 2 ^ 66] := by
      rw [Int.modEq_iff_dvd]
      refine ⟨275878811 * (((x * 1103515245 + 12345) / 2 ^ 64 : Nat) : ℤ), ?_⟩
      rw [hq]
      ring
    refine hstep.trans ?_
    have hpow : (1103515245 : ℤ) ^ (n + 1) * (1103515244 * (s : ℤ) + 12345)
        = 1103515245 * (1103515245 ^ n * (1103515244 * (s : ℤ) + 12345)) := by
      ring
    rw [hpow]
    exact ih.mul_left _

/-- Two seeds of the sequence coincide only at positions that differ by a
multiple of `2 ^ 64`. -/
theorem iterate_next_seed_eq (s m n : Nat) (hmn : m ≤ n)
    (heq : next_seed^[n] s = next_seed^[m] s) : 2 ^ 64 ∣ n - m := by
  apply two_pow_dvd_of_dvd_pow_sub_one
  have hn := iterate_next_seed_closed s n
  have hm := iterate_next_seed_closed s m
  rw [heq] at hn
  have hmod := (hm.symm.trans hn)
  rw [Int.modEq_iff_dvd] at hmod
  have hfact : (1103515245 : ℤ) ^ n * (1103515244 * (s : ℤ) + 12345)
      - 1103515245 ^ m * (1103515244 * (s : ℤ) + 12345)
      = (1103515245 ^ m * (1103515244 * (s : ℤ) + 12345)) * (1103515245 ^ (n - m) - 1) := by
    have : n = m + (n - m) := by omega
    conv_lhs => rw [this, pow_add]
    ring
  rw [hfact] at hmod
  have hcop2 : IsCoprime (2 : ℤ) (1103515245 ^ m * (1103515244 * (s : ℤ) + 12345)) := by
    apply IsCoprime.mul_right
    · apply IsCoprime.pow_right
      exact ⟨-551757622, 1, by norm_num⟩
    · exact ⟨-(551757622 * (s : ℤ) + 6172), 1, by ring⟩
  exact (hcop2.pow_left (m := 66)).dvd_of_dvd_mul_left hmod

/-- Full period: from any seed below `2 ^ 64`, every value below `2 ^ 64` is
reached within `2 ^ 64` steps of the generator. -/
theorem next_seed_reaches (s t : Nat) (hs : s < 2 ^ 64) (ht : t < 2 ^ 64) :
    ∃ n, n < 2 ^ 64 ∧ next_seed^[n] s = t := by
  let f : Fin (2 ^ 64) → Fin (2 ^ 64) :=
    fun n => ⟨next_seed^[n.val] s, iterate_next_seed_lt s hs n.val⟩
  have hinj : Function.Injective f := by
    intro a b hab
    have hval : next_seed^[a.val] s = next_seed^[b.val] s := congrArg Fin.val hab
    apply Fin.ext
    rcases Nat.le_total a.val b.val with hle | hle
    · have hd := iterate_next_seed_eq s a.val b.val hle hval.symm
      have hlt : b.val - a.val < 2 ^ 64 := lt_of_le_of_lt (Nat.sub_le _ _) b.isLt
      have := Nat.eq_zero_of_dvd_of_lt hd hlt
      omega
    · have hd := iterate_next_seed_eq s b.val a.val hle hval
      have hlt : a.val - b.val < 2 ^ 64 := lt_of_le_of_lt (Nat.sub_le _ _) a.isLt
      have := Nat.eq_zero_of_dvd_of_lt hd hlt
      omega
  have hsurj : Function.Surjective f := Finite.injective_iff_surjective.mp hinj
  obtain ⟨n, hn⟩ := hsurj ⟨t, ht⟩
  exact ⟨n.val, n.isLt, congrArg Fin.val hn⟩

/-! ## Termination of `initialize_replacement` -/

/-- A list of fewer than `N` numbers misses some number below `N`. -/
theorem exists_fresh_index (N : Nat) (sets : List Nat) (hlen : sets.length < N) :
    ∃ v, v < N ∧ v ∉ sets := by
  by_contra hall
  push_neg at hall
  have hsub : List.range N ⊆ sets := by
    intro v hv
    exact hall v (List.mem_range.mp hv)
  have hle := (List.subperm_of_subset (List.nodup_range N) hsub).length_le
  rw [List.length_range] at hle
  omega

/-- The value computed from the seed `v * 65536` is `v`. -/
theorem seed_val_shift (N v : Nat) (hv : v < N) : seed_val N (v * 65536) = v := by
  unfold seed_val
  rw [Nat.mul_div_cancel _ (by norm_num), Nat.mod_eq_of_lt hv]

/-- The rejection loop exits as soon as the generator reaches a seed whose
value is not in the list. -/
theorem reject_loop_terminates (NUM_SET : Nat) (sets : List Nat) (hs : sets.Pairwise (· < ·)) :
    ∀ (n fuel rand_seed : Nat), n ≤ fuel →
      seed_val NUM_SET (next_seed^[n] rand_seed) ∉ sets →
      ∃ r, reject_loop NUM_SET sets fuel rand_seed (seed_val NUM_SET rand_seed)
        (lower_bound (seed_val NUM_SET rand_seed) sets) = some r := by
  intro n
  induction n with
  | zero =>
    intro fuel seed _ hfresh
    rw [Function.iterate_zero, id] at hfresh
    unfold reject_loop
    rw [if_neg (fun hc => hfresh ((reject_test_iff_mem _ _ hs).mp hc))]
    exact ⟨_, rfl⟩
  | succ n ih =>
    intro fuel seed hle hfresh
    obtain ⟨f, rfl⟩ : ∃ f, fuel = f + 1 := ⟨fuel - 1, by omega⟩
    unfold reject_loop
    by_cases hc : lower_bound (seed_val NUM_SET seed) sets ≠ sets.length ∧
        sets[lower_bound (seed_val NUM_SET seed) sets]? = some (seed_val NUM_SET seed)
    · rw [if_pos hc]
      exact ih f (next_seed seed) (by omega) (by rwa [Function.iterate_succ_apply] at hfresh)
    · rw [if_neg hc]
      exact ⟨_, rfl⟩

/-- The seed the rejection loop exits with is a 64-bit value. -/
theorem reject_loop_seed_lt (NUM_SET : Nat) (sets : List Nat) :
    ∀ (fuel rand_seed val loc : Nat) (r : Nat × Nat × Nat), rand_seed < 2 ^ 64 →
      reject_loop NUM_SET sets fuel rand_seed val loc = some r → r.1 < 2 ^ 64 := by
  intro fuel
  induction fuel with
  | zero =>
    intro seed val loc r hlt hr
    unfold reject_loop at hr
    split at hr
    · exact absurd hr (by simp)
    · simp only [Option.some.injEq] at hr
      rw [← hr]
      exact hlt
  | succ fuel ih =>
    intro seed val loc r hlt hr
    unfold reject_loop at hr
    split at hr
    · exact ih _ _ _ r (next_seed_lt seed) hr
    · simp only [Option.some.injEq] at hr
      rw [← hr]
      exact hlt

/-- With a list shorter than `NUM_SET`, the rejection loop exits within
`2 ^ 64` iterations. -/
theorem reject_loop_returns (NUM_SET : Nat) (sets : List Nat) (rand_seed : Nat)
    (hs : sets.Pairwise (· < ·)) (hlen : sets.length < NUM_SET) (hN : NUM_SET ≤ 2 ^ 48)
    (hseed : rand_seed < 2 ^ 64) :
    ∃ r, reject_loop NUM_SET sets (2 ^ 64) rand_seed (seed_val NUM_SET rand_seed)
      (lower_bound (seed_val NUM_SET rand_seed) sets) = some r := by
  obtain ⟨v, hv, hfresh⟩ := exists_fresh_index NUM_SET sets hlen
  obtain ⟨n, hn, hreach⟩ := next_seed_reaches rand_seed (v * 65536) hseed (by omega)
  apply reject_loop_terminates NUM_SET sets hs n (2 ^ 64) rand_seed (le_of_lt hn)
  rw [hreach, seed_val_shift NUM_SET v hv]
  exact hfresh

/-- The `for` loop completes when the list stays within `NUM_SET` entries. -/
theorem sample_loop_returns (NUM_SET : Nat) (hN : NUM_SET ≤ 2 ^ 48) :
    ∀ (n rand_seed : Nat) (sets : List Nat), sets.Pairwise (· < ·) →
      sets.length + n ≤ NUM_SET → rand_seed < 2 ^ 64 →
      ∃ r, sample_loop NUM_SET (2 ^ 64) n rand_seed sets = some r := by
  intro n
  induction n with
  | zero =>
    intro seed sets _ _ _
    exact ⟨_, rfl⟩
  | succ n ih =>
    intro seed sets hs hlen hseed
    obtain ⟨r, hr⟩ := reject_loop_returns NUM_SET sets seed hs (by omega) hN hseed
    obtain ⟨_, _, _, hsorted⟩ := sample_step NUM_SET _ seed sets r hs hr
    have hlt := reject_loop_seed_lt NUM_SET sets _ _ _ _ r hseed hr
    obtain ⟨r', hr'⟩ := ih r.1 (insert_at sets r.2.2 r.2.1) hsorted
      (by rw [insert_at_length]; omega) hlt
    refine ⟨r', ?_⟩
    unfold sample_loop
    simp only [hr]
    exact hr'

/-- Initialisation completes when `256 * NUM_CPUS ≤ NUM_SET ≤ 2 ^ 48`. -/
theorem initialize_returns (h : Host) (hsets : 256 * h.NUM_CPUS ≤ h.NUM_SET)
    (hN : h.NUM_SET ≤ 2 ^ 48) :
    ∃ s, ∀ fuel, 2 ^ 64 ≤ fuel → initialize_replacement h fuel = some s := by
  obtain ⟨r, hr⟩ := sample_loop_returns h.NUM_SET hN (SAMPLER_SET h) (1103515245 + 12345) []
    List.Pairwise.nil (by simpa [SAMPLER_SET] using hsets) (by norm_num)
  refine ⟨{ ship_rand_sets := r.2
            sampler := List.replicate (SAMPLER_SET h * h.NUM_WAY) {}
            ship_rrpv_values := List.replicate (h.NUM_SET * h.NUM_WAY) maxRRPV
            SHCT := fun _ _ => 0 }, ?_⟩
  intro fuel hfuel
  unfold initialize_replacement
  rw [sample_loop_mono h.NUM_SET (2 ^ 64) fuel hfuel _ _ _ r hr]


/-! ## The example states -/

theorem update_rrpv_length (h : Host) (cc : Nat) (s : State)
    (cpu set way full_addr ip victim_addr type hit : Nat) :
    (update_replacement_state h cc s cpu set way full_addr ip victim_addr type
      hit).ship_rrpv_values.length = s.ship_rrpv_values.length := by
  rcases update_rrpv_cases h cc s cpu set way full_addr ip victim_addr type hit with
    heq | ⟨v, _, heq⟩
  · rw [heq]
  · rw [heq, List.length_set]

theorem run_rrpv_length (h : Host) (calls : List Access) :
    ∀ s : State, (run h s calls).ship_rrpv_values.length = s.ship_rrpv_values.length := by
  induction calls with
  | nil => intro s; rfl
  | cons a rest ih =>
    intro s
    unfold run
    rw [List.foldl_cons]
    exact (ih (apply_access h s a)).trans (update_rrpv_length h _ s _ _ _ _ _ _ _ _)

theorem ex_init_rrpv_length : ex_init_state.ship_rrpv_values.length = 8192 := by
  unfold ex_init_state
  simp only [List.length_replicate]
  rfl

theorem ex_full_rrpv_length : ex_full_state.ship_rrpv_values.length = 8192 := by
  unfold ex_full_state
  rw [run_rrpv_length, ex_init_rrpv_length]

theorem ex_sampled_rrpv_length : ex_sampled_state.ship_rrpv_values.length = 8192 := by
  unfold ex_sampled_state
  rw [update_rrpv_length, ex_init_rrpv_length]

set_option maxRecDepth 100000 in
/-- After the four fills, the slots of set 0 hold `2, 2, 2, 2`. -/
theorem ex_full_set_zero : rrpv_set ex_host ex_full_state.ship_rrpv_values 0 = [2, 2, 2, 2] := by
  decide

set_option maxRecDepth 100000 in
/-- The sampler range of set 1 after the first access to the set: the entry of
that access, then entries that were never written. -/
theorem ex_sampled_range :
    sampler_range ex_host ex_sampled_state 1 =
      [{ valid := true, type := 0, used := 0, address := 131136, ip := 256, last_used := 1 },
        {}, {}, {}] := by
  decide

theorem update_rand_sets (h : Host) (cc : Nat) (s : State)
    (cpu set way full_addr ip victim_addr type hit : Nat) :
    (update_replacement_state h cc s cpu set way full_addr ip victim_addr type
      hit).ship_rand_sets = s.ship_rand_sets := by
  unfold update_replacement_state
  simp only
  split
  · split <;> rfl
  · split
    · exact update_sampler_rand_sets h cc s cpu set full_addr ip type
    · split <;> exact update_sampler_rand_sets h cc s cpu set full_addr ip type

theorem ex_sampled_rand_sets : ex_sampled_state.ship_rand_sets = ex_sets := by
  unfold ex_sampled_state
  rw [update_rand_sets]
  rfl

/-! ## Frame lemmas for the second group of claims -/

/-- The SHCT after the sampler step: unchanged, or one counter of the accessing
core moved down by one, or up by one to at most `SHCT_MAX`. -/
theorem update_sampler_SHCT_cases (h : Host) (cc : Nat) (s : State)
    (cpu set full_addr ip type : Nat) :
    (update_sampler h cc s cpu set full_addr ip type).SHCT = s.SHCT ∨
      ∃ i v : Nat,
        (update_sampler h cc s cpu set full_addr ip type).SHCT
          = Function.update s.SHCT cpu (Function.update (s.SHCT cpu) i v) ∧
        (v + 1 = s.SHCT cpu i ∨ (v = s.SHCT cpu i + 1 ∧ v ≤ SHCT_MAX)) := by
  unfold update_sampler
  simp only
  split
  · split
    · simp only
      split
      · rename_i hpos
        exact Or.inr ⟨_, _, rfl, Or.inl (by omega)⟩
      · exact Or.inl rfl
    · simp only
      split
      · split
        · rename_i hlt
          exact Or.inr ⟨_, _, rfl, Or.inr ⟨rfl, hlt⟩⟩
        · exact Or.inl rfl
      · exact Or.inl rfl
  · exact Or.inl rfl

/-- The sampler step moves no counter up by more than one. -/
theorem update_sampler_SHCT_le_succ (h : Host) (cc : Nat) (s : State)
    (cpu set full_addr ip type : Nat) (c i : Nat) :
    (update_sampler h cc s cpu set full_addr ip type).SHCT c i ≤ s.SHCT c i + 1 := by
  rcases update_sampler_SHCT_cases h cc s cpu set full_addr ip type with heq | ⟨j, v, heq, hv⟩
  · rw [heq]
    omega
  · rw [heq]
    by_cases hc : c = cpu
    · subst hc
      rw [Function.update_same]
      by_cases hi : i = j
      · subst hi
        rw [Function.update_same]
        omega
      · rw [Function.update_noteq hi]
        omega
    · rw [Function.update_noteq hc]
      omega

/-- The sampler step leaves the SHCT arrays of the other cores alone. -/
theorem update_sampler_SHCT_other (h : Host) (cc : Nat) (s : State)
    (cpu set full_addr ip type : Nat) (c : Nat) (hc : c ≠ cpu) :
    (update_sampler h cc s cpu set full_addr ip type).SHCT c = s.SHCT c := by
  rcases update_sampler_SHCT_cases h cc s cpu set full_addr ip type with heq | ⟨j, v, heq, _⟩
  · rw [heq]
  · rw [heq, Function.update_noteq hc]

/-- A call of type `WRITE` leaves the sampler and the SHCT alone. -/
theorem update_write_frame (h : Host) (cc : Nat) (s : State)
    (cpu set way full_addr ip victim_addr hit : Nat) :
    (update_replacement_state h cc s cpu set way full_addr ip victim_addr h.WRITE hit).sampler
        = s.sampler ∧
      (update_replacement_state h cc s cpu set way full_addr ip victim_addr h.WRITE hit).SHCT
        = s.SHCT := by
  unfold update_replacement_state
  simp only [if_true]
  split <;> exact ⟨rfl, rfl⟩

/-- The sampler after a non-write access is the sampler after its sampler step. -/
theorem update_sampler_of_ne_write (h : Host) (cc : Nat) (s : State)
    (cpu set way full_addr ip victim_addr type hit : Nat) (ht : type ≠ h.WRITE) :
    (update_replacement_state h cc s cpu set way full_addr ip victim_addr type hit).sampler
      = (update_sampler h cc s cpu set full_addr ip type).sampler := by
  unfold update_replacement_state
  simp only [if_neg ht]
  split
  · rfl
  · split <;> rfl

/-- The sampler step does nothing for a set that is not sampled. -/
theorem update_sampler_not_sampled (h : Host) (cc : Nat) (s : State)
    (cpu set full_addr ip type : Nat) (hset : set ∉ s.ship_rand_sets) :
    update_sampler h cc s cpu set full_addr ip type = s := by
  have hfind : find set s.ship_rand_sets = s.ship_rand_sets.length := by
    unfold find
    rw [find_if_eq_length_iff]
    intro x hx
    simp only [decide_eq_false_iff_not]
    intro hxs
    exact hset (hxs ▸ hx)
  unfold update_sampler
  simp only [hfind, ne_eq, not_true_eq_false, if_false]

/-- The slot of `(set, way)` after a miss fill of a type other than `WRITE`. -/
theorem update_miss_slot (h : Host) (cc : Nat) (s : State)
    (cpu set way full_addr ip victim_addr type : Nat) (ht : type ≠ h.WRITE)
    (hslot : set * h.NUM_WAY + way < s.ship_rrpv_values.length) :
    (update_replacement_state h cc s cpu set way full_addr ip victim_addr type
        0).ship_rrpv_values[set * h.NUM_WAY + way]? =
      some (if (update_sampler h cc s cpu set full_addr ip type).SHCT cpu (ip % SHCT_PRIME)
          = SHCT_MAX then maxRRPV else maxRRPV - 1) := by
  unfold update_replacement_state
  simp only [if_neg ht, ne_eq, not_true_eq_false, if_false]
  split
  · simp only [update_sampler_rrpv]
    rw [List.getElem?_set_self (by simpa using hslot)]
  · simp only [update_sampler_rrpv]
    rw [List.getElem?_set_self hslot]

/-- The sampler step reads the SHCT array of the accessing core only: on two
states that differ at most in the arrays of other cores it gives the same
sampler and the same array for the accessing core. -/
theorem update_sampler_congr (h : Host) (cc : Nat) (s₁ s₂ : State)
    (cpu set full_addr ip type : Nat)
    (hsets : s₁.ship_rand_sets = s₂.ship_rand_sets) (hsampler : s₁.sampler = s₂.sampler)
    (hcore : s₁.SHCT cpu = s₂.SHCT cpu) :
    (update_sampler h cc s₁ cpu set full_addr ip type).sampler
        = (update_sampler h cc s₂ cpu set full_addr ip type).sampler ∧
      (update_sampler h cc s₁ cpu set full_addr ip type).SHCT cpu
        = (update_sampler h cc s₂ cpu set full_addr ip type).SHCT cpu := by
  unfold update_sampler
  simp only [hsets, hsampler, hcore]
  split
  · split
    · simp only [true_and]
      split <;> simp only [Function.update_same, hcore]
    · simp only [true_and]
      split
      · split <;> simp only [Function.update_same, hcore]
      · exact hcore
  · exact ⟨hsampler, hcore⟩

/-- The RRPV table after a call of a type other than `WRITE`. -/
theorem update_rrpv_of_ne_write (h : Host) (cc : Nat) (s : State)
    (cpu set way full_addr ip victim_addr type hit : Nat) (ht : type ≠ h.WRITE) :
    (update_replacement_state h cc s cpu set way full_addr ip victim_addr type
        hit).ship_rrpv_values =
      if hit ≠ 0 then s.ship_rrpv_values.set (set * h.NUM_WAY + way) 0
      else if (update_sampler h cc s cpu set full_addr ip type).SHCT cpu (ip % SHCT_PRIME)
          = SHCT_MAX then
        (s.ship_rrpv_values.set (set * h.NUM_WAY + way) (maxRRPV - 1)).set
          (set * h.NUM_WAY + way) maxRRPV
      else s.ship_rrpv_values.set (set * h.NUM_WAY + way) (maxRRPV - 1) := by
  unfold update_replacement_state
  simp only [if_neg ht]
  split
  · simp only [update_sampler_rrpv]
  · split <;> simp only [update_sampler_rrpv]

/-- A call reads the SHCT array of the accessing core only. -/
theorem update_congr (h : Host) (cc : Nat) (s₁ s₂ : State)
    (cpu set way full_addr ip victim_addr type hit : Nat)
    (hsets : s₁.ship_rand_sets = s₂.ship_rand_sets) (hsampler : s₁.sampler = s₂.sampler)
    (hrrpv : s₁.ship_rrpv_values = s₂.ship_rrpv_values)
    (hcore : s₁.SHCT cpu = s₂.SHCT cpu) :
    (update_replacement_state h cc s₁ cpu set way full_addr ip victim_addr type
        hit).ship_rrpv_values
      = (update_replacement_state h cc s₂ cpu set way full_addr ip victim_addr type
        hit).ship_rrpv_values ∧
    (update_replacement_state h cc s₁ cpu set way full_addr ip victim_addr type hit).SHCT cpu
      = (update_replacement_state h cc s₂ cpu set way full_addr ip victim_addr type
        hit).SHCT cpu := by
  by_cases ht : type = h.WRITE
  · subst ht
    rw [(update_write_frame h cc s₁ cpu set way full_addr ip victim_addr hit).2,
      (update_write_frame h cc s₂ cpu set way full_addr ip victim_addr hit).2]
    refine ⟨?_, hcore⟩
    unfold update_replacement_state
    simp only [if_true]
    split <;> simp only [hrrpv]
  · obtain ⟨_, hc⟩ :=
      update_sampler_congr h cc s₁ s₂ cpu set full_addr ip type hsets hsampler hcore
    rw [update_rrpv_of_ne_write h cc s₁ cpu set way full_addr ip victim_addr type hit ht,
      update_rrpv_of_ne_write h cc s₂ cpu set way full_addr ip victim_addr type hit ht,
      update_SHCT_of_ne_write h cc s₁ cpu set way full_addr ip victim_addr type hit ht,
      update_SHCT_of_ne_write h cc s₂ cpu set way full_addr ip victim_addr type hit ht,
      hrrpv, hc]
    exact ⟨rfl, rfl⟩

/-- A call leaves the SHCT arrays of the other cores alone. -/
theorem update_SHCT_other (h : Host) (cc : Nat) (s : State)
    (cpu set way full_addr ip victim_addr type hit : Nat) (c : Nat) (hc : c ≠ cpu) :
    (update_replacement_state h cc s cpu set way full_addr ip victim_addr type hit).SHCT c
      = s.SHCT c := by
  by_cases ht : type = h.WRITE
  · subst ht
    rw [(update_write_frame h cc s cpu set way full_addr ip victim_addr hit).2]
  · rw [update_SHCT_of_ne_write h cc s cpu set way full_addr ip victim_addr type hit ht]
    exact update_sampler_SHCT_other h cc s cpu set full_addr ip type c hc

/-! ## The sampler step, case by case -/

/-- The first element that satisfies `p` is where `find_if` stops. -/
theorem find_if_unique {α : Type} (p : α → Bool) (l : List α) (m : Nat) (e : α)
    (hm : l[m]? = some e) (hp : p e = true)
    (hfirst : ∀ j x, j < m → l[j]? = some x → p x = false) : find_if p l = m := by
  induction l generalizing m with
  | nil => simp at hm
  | cons a t ih =>
    unfold find_if
    cases m with
    | zero =>
      simp only [List.getElem?_cons_zero, Option.some.injEq] at hm
      rw [hm, if_pos hp]
    | succ m =>
      have ha : p a = false := hfirst 0 a (by omega) (by simp)
      simp only [ha, Bool.false_eq_true, if_false, Nat.add_right_cancel_iff]
      apply ih m
      · simpa using hm
      · intro j x hj hx
        exact hfirst (j + 1) x (by omega) (by simpa using hx)

/-- When no later element is older than the smallest so far, the loop of
`min_element` keeps the smallest so far. -/
theorem min_element_loop_keep (xs : List SAMPLER_class) (i smallest : Nat) (sv : SAMPLER_class)
    (hall : ∀ x ∈ xs, sv.last_used ≤ x.last_used) :
    min_element_loop xs i smallest sv = smallest := by
  induction xs generalizing i with
  | nil => rfl
  | cons x t ih =>
    unfold min_element_loop
    have hx := hall x (List.mem_cons_self _ _)
    rw [if_neg (by omega)]
    exact ih (i + 1) (fun y hy => hall y (List.mem_cons_of_mem _ hy))

/-- When the first oldest element `e` is ahead at offset `k`, the loop of
`min_element` ends on it. -/
theorem min_element_loop_find (xs : List SAMPLER_class) (i smallest k : Nat)
    (sv e : SAMPLER_class) (hk : xs[k]? = some e)
    (hmin : ∀ x ∈ xs, e.last_used ≤ x.last_used) (hlt : e.last_used < sv.last_used)
    (hfirst : ∀ j x, j < k → xs[j]? = some x → e.last_used < x.last_used) :
    min_element_loop xs i smallest sv = i + k := by
  induction xs generalizing i smallest sv k with
  | nil => simp at hk
  | cons x t ih =>
    unfold min_element_loop
    cases k with
    | zero =>
      simp only [List.getElem?_cons_zero, Option.some.injEq] at hk
      subst hk
      rw [if_pos hlt]
      exact min_element_loop_keep t (i + 1) i x
        (fun y hy => hmin y (List.mem_cons_of_mem _ hy))
    | succ k =>
      have hx : e.last_used < x.last_used := hfirst 0 x (by omega) (by simp)
      have hk' : t[k]? = some e := by simpa using hk
      have hmin' : ∀ y ∈ t, e.last_used ≤ y.last_used :=
        fun y hy => hmin y (List.mem_cons_of_mem _ hy)
      have hfirst' : ∀ j y, j < k → t[j]? = some y → e.last_used < y.last_used :=
        fun j y hj hy => hfirst (j + 1) y (by omega) (by simpa using hy)
      split
      · rw [ih (i + 1) i k x hk' hmin' hx hfirst']
        omega
      · rw [ih (i + 1) smallest k sv hk' hmin' hlt hfirst']
        omega

/-- The algorithm `min_element` returns the offset of the first element with
the smallest `last_used`. -/
theorem min_element_unique (l : List SAMPLER_class) (m : Nat) (e : SAMPLER_class)
    (hm : l[m]? = some e) (hmin : ∀ x ∈ l, e.last_used ≤ x.last_used)
    (hfirst : ∀ j x, j < m → l[j]? = some x → e.last_used < x.last_used) :
    min_element l = m := by
  cases l with
  | nil => simp at hm
  | cons a t =>
    show min_element_loop t 1 0 a = m
    cases m with
    | zero =>
      simp only [List.getElem?_cons_zero, Option.some.injEq] at hm
      subst hm
      exact min_element_loop_keep t 1 0 a (fun y hy => hmin y (List.mem_cons_of_mem _ hy))
    | succ m =>
      have ha : e.last_used < a.last_used := hfirst 0 a (by omega) (by simp)
      rw [min_element_loop_find t 1 0 m a e (by simpa using hm)
        (fun y hy => hmin y (List.mem_cons_of_mem _ hy)) ha
        (fun j y hj hy => hfirst (j + 1) y (by omega) (by simpa using hy))]
      omega

/-- An entry of the sampler range of `set` is the entry of the sampler table at
the position of `set` in the sampled-sets list plus its offset. -/
theorem sampler_range_getD (h : Host) (s : State) (set m : Nat) (e : SAMPLER_class)
    (hm : (sampler_range h s set)[m]? = some e) :
    m < (sampler_range h s set).length ∧
      s.sampler[find set s.ship_rand_sets + m]? = some e ∧
      s.sampler.getD (find set s.ship_rand_sets + m) {} = e := by
  have hlt : m < (sampler_range h s set).length := by
    by_contra hge
    rw [List.getElem?_eq_none (by omega)] at hm
    exact absurd hm (by simp)
  have hget : s.sampler[find set s.ship_rand_sets + m]? = some e := by
    unfold sampler_range at hm hlt
    rw [List.getElem?_take_of_lt (by simp at hlt; omega), List.getElem?_drop] at hm
    exact hm
  refine ⟨hlt, hget, ?_⟩
  rw [List.getD_eq_getElem?_getD, hget]
  rfl

/-- The sampler step on a sampler hit at offset `m`, entry `e`. -/
theorem update_sampler_hit (h : Host) (cc : Nat) (s : State)
    (cpu set full_addr ip type m : Nat) (e : SAMPLER_class)
    (hsampled : find set s.ship_rand_sets ≠ s.ship_rand_sets.length)
    (hm : m = find_if (h.eq_addr full_addr (8 + h.lg2 h.NUM_WAY)) (sampler_range h s set))
    (he : (sampler_range h s set)[m]? = some e) :
    update_sampler h cc s cpu set full_addr ip type =
      { s with
        SHCT :=
          if s.SHCT cpu (e.ip % SHCT_PRIME) > 0 then
            Function.update s.SHCT cpu
              (Function.update (s.SHCT cpu) (e.ip % SHCT_PRIME)
                (s.SHCT cpu (e.ip % SHCT_PRIME) - 1))
          else s.SHCT
        sampler := s.sampler.set (find set s.ship_rand_sets + m)
          { e with type := type % 256, used := 1, last_used := cc } } := by
  obtain ⟨hlt, _, hget⟩ := sampler_range_getD h s set m e he
  unfold update_sampler
  unfold sampler_range at hm hlt
  simp only [if_pos hsampled]
  rw [← hm, if_pos (by omega), hget]

/-- The sampler step on a sampler miss that evicts the entry `e` at offset `m`. -/
theorem update_sampler_miss (h : Host) (cc : Nat) (s : State)
    (cpu set full_addr ip type m : Nat) (e : SAMPLER_class)
    (hsampled : find set s.ship_rand_sets ≠ s.ship_rand_sets.length)
    (hnone : find_if (h.eq_addr full_addr (8 + h.lg2 h.NUM_WAY)) (sampler_range h s set)
      = (sampler_range h s set).length)
    (hm : m = min_element (sampler_range h s set))
    (he : (sampler_range h s set)[m]? = some e) :
    update_sampler h cc s cpu set full_addr ip type =
      { s with
        SHCT :=
          if e.used ≠ 0 then
            if s.SHCT cpu (e.ip % SHCT_PRIME) < SHCT_MAX then
              Function.update s.SHCT cpu
                (Function.update (s.SHCT cpu) (e.ip % SHCT_PRIME)
                  (s.SHCT cpu (e.ip % SHCT_PRIME) + 1))
            else s.SHCT
          else s.SHCT
        sampler := s.sampler.set (find set s.ship_rand_sets + m)
          { e with valid := true, address := full_addr, ip := ip, type := type % 256,
                   used := 0, last_used := cc } } := by
  obtain ⟨_, _, hget⟩ := sampler_range_getD h s set m e he
  unfold update_sampler
  unfold sampler_range at hm hnone
  simp only [if_pos hsampled]
  rw [hnone]
  simp only [ne_eq, not_true_eq_false, if_false]
  rw [← hm, hget]

/-- A sampled set is found in the sampled-sets list. -/
theorem find_ne_length_of_mem (set : Nat) (sets : List Nat) (hmem : set ∈ sets) :
    find set sets ≠ sets.length :=
  Nat.ne_of_lt (find_lt_length_of_mem set sets hmem)

/-- No entry of the range matches: `find_if` returns the end of the range. -/
theorem find_if_none (h : Host) (s : State) (set full_addr : Nat)
    (hnone : ∀ x ∈ sampler_range h s set,
      h.eq_addr full_addr (8 + h.lg2 h.NUM_WAY) x = false) :
    find_if (h.eq_addr full_addr (8 + h.lg2 h.NUM_WAY)) (sampler_range h s set)
      = (sampler_range h s set).length :=
  (find_if_eq_length_iff _ _).mpr hnone

/-! ## Sampler misses and the SHCT -/

/-- A sampler miss that evicts an entry whose used flag is clear changes no
SHCT counter. -/
theorem evicts_unused_SHCT (h : Host) (s : State) (a : Access) (hev : evicts_unused h s a) :
    (apply_access h s a).SHCT = s.SHCT := by
  obtain ⟨⟨htype, hmem, hnone⟩, hused⟩ := hev
  unfold apply_access
  rw [update_SHCT_of_ne_write h _ s _ _ _ _ _ _ _ _ htype]
  unfold evicted_entry sampler_range at hused
  unfold sampler_range at hnone
  unfold update_sampler
  simp only [if_pos (find_ne_length_of_mem _ _ hmem), hnone, ne_eq, not_true_eq_false, if_false,
    hused]

/-- A sequence of sampler misses that evict entries whose used flag is clear
changes no SHCT counter. -/
theorem all_evict_unused_SHCT (h : Host) (calls : List Access) :
    ∀ s : State, all_evict_unused h s calls → (run h s calls).SHCT = s.SHCT := by
  induction calls with
  | nil => intro s _; rfl
  | cons a rest ih =>
    intro s hall
    obtain ⟨ha, hrest⟩ := hall
    unfold run
    rw [List.foldl_cons]
    exact (ih (apply_access h s a) hrest).trans (evicts_unused_SHCT h s a ha)

/-- The state that initialisation returns has zero SHCT arrays. -/
theorem initialize_SHCT (h : Host) (fuel : Nat) (s : State)
    (hs : initialize_replacement h fuel = some s) : s.SHCT = fun _ _ => 0 := by
  unfold initialize_replacement at hs
  split at hs
  · exact absurd hs (by simp)
  · simp only [Option.some.injEq] at hs
    rw [← hs]

/-! ## More on the example states -/

theorem run_rand_sets (h : Host) (calls : List Access) :
    ∀ s : State, (run h s calls).ship_rand_sets = s.ship_rand_sets := by
  induction calls with
  | nil => intro s; rfl
  | cons a rest ih =>
    intro s
    unfold run
    rw [List.foldl_cons]
    exact (ih (apply_access h s a)).trans (update_rand_sets h _ s _ _ _ _ _ _ _ _)

theorem ex_used_rand_sets : ex_used_state.ship_rand_sets = ex_sets := by
  unfold ex_used_state
  rw [run_rand_sets]
  rfl

set_option maxRecDepth 1000000 in
/-- The sampler range of set 1 after `ex_warm_calls`: four valid entries with
signature 256 and the used flag set, last used at cycles 5 to 8. -/
theorem ex_used_range :
    sampler_range ex_host ex_used_state 1 =
      [{ valid := true, type := 0, used := 1, address := 131136, ip := 256, last_used := 5 },
        { valid := true, type := 0, used := 1, address := 262208, ip := 256, last_used := 6 },
        { valid := true, type := 0, used := 1, address := 393280, ip := 256, last_used := 7 },
        { valid := true, type := 0, used := 1, address := 524352, ip := 256, last_used := 8 }] := by
  decide!

set_option maxRecDepth 1000000 in
/-- No counter has moved after `ex_warm_calls`. -/
theorem ex_used_SHCT : ex_used_state.SHCT 0 (256 % SHCT_PRIME) = 0 := by
  decide!

/-! ## The reference for `find_victim` -/

theorem foldl_max_spec (xs : List Int) :
    ∀ a : Int, xs.foldl max a ∈ a :: xs ∧ ∀ x ∈ a :: xs, x ≤ xs.foldl max a := by
  induction xs with
  | nil =>
    intro a
    simp
  | cons y t ih =>
    intro a
    rw [List.foldl_cons]
    obtain ⟨hmem, hle⟩ := ih (max a y)
    constructor
    · rcases List.mem_cons.mp hmem with heq | ht
      · rw [heq]
        rcases max_choice a y with hc | hc
        · rw [hc]; exact List.mem_cons_self _ _
        · rw [hc]; exact List.mem_cons_of_mem _ (List.mem_cons_self _ _)
      · exact List.mem_cons_of_mem _ (List.mem_cons_of_mem _ ht)
    · intro x hx
      have hmax := hle (max a y) (List.mem_cons_self _ _)
      rcases List.mem_cons.mp hx with rfl | hx
      · exact le_trans (le_max_left _ _) hmax
      · rcases List.mem_cons.mp hx with rfl | hx
        · exact le_trans (le_max_right _ _) hmax
        · exact hle x (List.mem_cons_of_mem _ hx)

/-- On a non-empty range `range_max` is an element and an upper bound. -/
theorem range_max_spec (l : List Int) (hne : l ≠ []) :
    range_max l ∈ l ∧ ∀ x ∈ l, x ≤ range_max l := by
  cases l with
  | nil => exact absurd rfl hne
  | cons a t => exact foldl_max_spec t a

/-- The largest element of a range is determined by the range. -/
theorem range_max_unique (l : List Int) (m : Int) (hm : m ∈ l) (hmax : ∀ x ∈ l, x ≤ m) :
    range_max l = m := by
  obtain ⟨h1, h2⟩ := range_max_spec l (List.ne_nil_of_mem hm)
  exact le_antisymm (hmax _ h1) (h2 m hm)

/-- The slots outside the set are not touched by aging. -/
theorem aged_getElem?_outside (h : Host) (rrpv : List Int) (set k i : Nat)
    (hlen : set * h.NUM_WAY + h.NUM_WAY ≤ rrpv.length)
    (hi : i < set * h.NUM_WAY ∨ set * h.NUM_WAY + h.NUM_WAY ≤ i) :
    (aged h rrpv set k)[i]? = rrpv[i]? := by
  have hl := rrpv_set_length h rrpv set hlen
  have htake : (rrpv.take (set * h.NUM_WAY)).length = set * h.NUM_WAY := by
    simp; omega
  unfold aged
  rcases hi with hi | hi
  · rw [List.append_assoc, List.getElem?_append_left (by omega), List.getElem?_take_of_lt hi]
  · rw [List.getElem?_append_right (by simp; omega)]
    simp only [List.length_append, List.length_map, htake, hl, List.getElem?_drop]
    congr 1
    omega

/-- The slots of the set move up by `k`. -/
theorem aged_getElem?_inside (h : Host) (rrpv : List Int) (set k j : Nat)
    (hlen : set * h.NUM_WAY + h.NUM_WAY ≤ rrpv.length) (hj : j < h.NUM_WAY) :
    (aged h rrpv set k)[set * h.NUM_WAY + j]?
      = (rrpv[set * h.NUM_WAY + j]?).map (fun x => x + (k : Int)) := by
  rw [← rrpv_set_getElem? h _ set j hj, rrpv_set_aged h rrpv set k hlen, List.getElem?_map,
    rrpv_set_getElem? h _ set j hj]

/-- With enough fuel `find_victim` returns what the reference returns. -/
theorem find_victim_eq_reference (h : Host) (s : State) (set : Nat)
    (hway : 1 ≤ h.NUM_WAY)
    (hlen : set * h.NUM_WAY + h.NUM_WAY ≤ s.ship_rrpv_values.length)
    (hrange : ∀ x ∈ rrpv_set h s.ship_rrpv_values set, 0 ≤ x ∧ x ≤ maxRRPV) :
    ∃ k : Nat, (k : Int) = maxRRPV - range_max (rrpv_set h s.ship_rrpv_values set) ∧ k ≤ 3 ∧
      (find_victim_reference h s set).2.ship_rrpv_values = aged h s.ship_rrpv_values set k ∧
      ∀ fuel, find_victim h fuel s set
        = if k ≤ fuel then some (find_victim_reference h s set) else none := by
  have hl := rrpv_set_length h s.ship_rrpv_values set hlen
  have hne : rrpv_set h s.ship_rrpv_values set ≠ [] := by
    intro h0
    rw [h0] at hl
    simp at hl
    omega
  obtain ⟨hmem, hmax⟩ := range_max_spec _ hne
  have hm := hrange _ hmem
  obtain ⟨k, hk⟩ : ∃ k : Nat,
      (k : Int) = maxRRPV - range_max (rrpv_set h s.ship_rrpv_values set) :=
    ⟨(maxRRPV - range_max (rrpv_set h s.ship_rrpv_values set)).toNat, by omega⟩
  have href : (find_victim_reference h s set).2.ship_rrpv_values
      = aged h s.ship_rrpv_values set k := by
    unfold find_victim_reference aged
    simp only [hk]
  have hfind : (find_victim_reference h s set).1
      = find (maxRRPV - (k : Int)) (rrpv_set h s.ship_rrpv_values set) := by
    unfold find_victim_reference
    simp only [hk, sub_sub_cancel]
  refine ⟨k, hk, by unfold maxRRPV at hk hm; omega, href, ?_⟩
  intro fuel
  have hloop := find_victim_loop_eq h set k fuel s.ship_rrpv_values hlen
    (by intro x hx; have := hmax x hx; rw [hk]; omega)
    ⟨_, hmem, by rw [hk]; omega⟩
  unfold find_victim
  rw [hloop]
  by_cases hkf : k ≤ fuel
  · rw [if_pos hkf, if_pos hkf]
    simp only [Option.some.injEq]
    rw [← hfind, ← href]
    rfl
  · rw [if_neg hkf, if_neg hkf]

/-! ## Non-termination of `initialize_replacement` on small caches -/

/-- A strictly ascending list of numbers below `N` has at most `N` entries. -/
theorem sorted_bounded_length (N : Nat) (l : List Nat) (hs : l.Pairwise (· < ·))
    (hb : ∀ x ∈ l, x < N) : l.length ≤ N := by
  have hnd : l.Nodup := hs.imp (fun hlt => Nat.ne_of_lt hlt)
  have hsub : l ⊆ List.range N := fun x hx => List.mem_range.mpr (hb x hx)
  have hle := (List.subperm_of_subset hnd hsub).length_le
  rwa [List.length_range] at hle

/-- The `for` loop keeps the list strictly ascending, below `NUM_SET`, and adds
one entry per iteration. -/
theorem sample_loop_bounded (NUM_SET fuel : Nat) (hN : 0 < NUM_SET) :
    ∀ (n rand_seed : Nat) (sets : List Nat) (r : Nat × List Nat), sets.Pairwise (· < ·) →
      (∀ x ∈ sets, x < NUM_SET) → sample_loop NUM_SET fuel n rand_seed sets = some r →
      ∀ x ∈ r.2, x < NUM_SET := by
  intro n
  induction n with
  | zero =>
    intro seed sets r _ hb hr
    unfold sample_loop at hr
    simp only [Option.some.injEq] at hr
    subst hr
    exact hb
  | succ n ih =>
    intro seed sets r hs hb hr
    unfold sample_loop at hr
    simp only at hr
    split at hr
    · exact absurd hr (by simp)
    · rename_i seed' val' loc' heq
      obtain ⟨hval, _, _, hsorted⟩ := sample_step NUM_SET fuel seed sets _ hs heq
      apply ih seed' _ r hsorted _ hr
      intro x hx
      rcases mem_insert_at _ _ _ _ hx with rfl | hx
      · simp only at hval
        rw [hval]
        exact Nat.mod_lt _ hN
      · exact hb x hx

/-- The `for` loop cannot complete more iterations than there are sets. -/
theorem sample_loop_iterations_le (NUM_SET fuel n rand_seed : Nat) (hN : 0 < NUM_SET)
    (r : Nat × List Nat) (hr : sample_loop NUM_SET fuel n rand_seed [] = some r) :
    n ≤ NUM_SET := by
  obtain ⟨hsorted, hlen⟩ :=
    sample_loop_sorted NUM_SET fuel n rand_seed [] r List.Pairwise.nil hr
  have hb := sample_loop_bounded NUM_SET fuel hN n rand_seed [] r List.Pairwise.nil
    (fun x hx => absurd hx (List.not_mem_nil x)) hr
  have := sorted_bounded_length NUM_SET r.2 hsorted hb
  simp only [List.length_nil, Nat.zero_add] at hlen
  omega

/-- On a list that holds every index below `NUM_SET`, the rejection loop is
still running when any fuel is used up. -/
theorem reject_loop_full (NUM_SET : Nat) (hN : 0 < NUM_SET) (sets : List Nat)
    (hs : sets.Pairwise (· < ·)) (hfull : ∀ v, v < NUM_SET → v ∈ sets) :
    ∀ (fuel rand_seed : Nat),
      reject_loop NUM_SET sets fuel rand_seed (seed_val NUM_SET rand_seed)
        (lower_bound (seed_val NUM_SET rand_seed) sets) = none := by
  have htest : ∀ seed, lower_bound (seed_val NUM_SET seed) sets ≠ sets.length ∧
      sets[lower_bound (seed_val NUM_SET seed) sets]? = some (seed_val NUM_SET seed) :=
    fun seed => (reject_test_iff_mem _ _ hs).mpr (hfull _ (Nat.mod_lt _ hN))
  intro fuel
  induction fuel with
  | zero =>
    intro seed
    unfold reject_loop
    rw [if_pos (htest seed)]
  | succ fuel ih =>
    intro seed
    unfold reject_loop
    rw [if_pos (htest seed)]
    exact ih (next_seed seed)

/-! ## Miss fills with a saturated counter -/

/-- A sampler step that is not a sampler hit leaves a saturated counter of the
accessing core at `SHCT_MAX`. -/
theorem update_sampler_keeps_saturated (h : Host) (cc : Nat) (s : State)
    (cpu set full_addr ip type i : Nat)
    (hnone : find_if (h.eq_addr full_addr (8 + h.lg2 h.NUM_WAY)) (sampler_range h s set)
      = (sampler_range h s set).length)
    (hsat : s.SHCT cpu i = SHCT_MAX) :
    (update_sampler h cc s cpu set full_addr ip type).SHCT cpu i = SHCT_MAX := by
  unfold sampler_range at hnone
  unfold update_sampler
  simp only
  split
  · rw [hnone]
    simp only [ne_eq, not_true_eq_false, if_false]
    split
    · split
      · rename_i hlt
        rw [Function.update_same]
        by_cases hi : i = (s.sampler.getD (find set s.ship_rand_sets
            + min_element ((s.sampler.drop (find set s.ship_rand_sets)).take h.NUM_WAY))
            {}).ip % SHCT_PRIME
        · rw [← hi, hsat] at hlt
          exact absurd hlt (Nat.lt_irrefl _)
        · rw [Function.update_noteq hi]
          exact hsat
      · exact hsat
    · exact hsat
  · exact hsat

/-- A miss fill of a type other than `WRITE` whose signature has a saturated
counter before the call: the slot gets `maxRRPV` when the set is not sampled
and when the sampler step is a sampler miss; when the sampler step is a
sampler hit on the entry `e`, the slot gets `maxRRPV - 1` if `e` holds the
same signature index (the hit decrements the counter before line 128 reads
it) and `maxRRPV` otherwise. -/
theorem saturated_miss_fill (h : Host) (cc : Nat) (s : State)
    (cpu set way full_addr ip victim_addr type : Nat) (htype : type ≠ h.WRITE)
    (hslot : set * h.NUM_WAY + way < s.ship_rrpv_values.length)
    (hsat : s.SHCT cpu (ip % SHCT_PRIME) = SHCT_MAX) :
    (set ∉ s.ship_rand_sets →
      (update_replacement_state h cc s cpu set way full_addr ip victim_addr type
        0).ship_rrpv_values[set * h.NUM_WAY + way]? = some maxRRPV) ∧
    ((∀ x ∈ sampler_range h s set, h.eq_addr full_addr (8 + h.lg2 h.NUM_WAY) x = false) →
      (update_replacement_state h cc s cpu set way full_addr ip victim_addr type
        0).ship_rrpv_values[set * h.NUM_WAY + way]? = some maxRRPV) ∧
    (∀ (m : Nat) (e : SAMPLER_class), set ∈ s.ship_rand_sets →
      (sampler_range h s set)[m]? = some e →
      h.eq_addr full_addr (8 + h.lg2 h.NUM_WAY) e = true →
      (∀ j x, j < m → (sampler_range h s set)[j]? = some x →
        h.eq_addr full_addr (8 + h.lg2 h.NUM_WAY) x = false) →
      (update_replacement_state h cc s cpu set way full_addr ip victim_addr type
        0).ship_rrpv_values[set * h.NUM_WAY + way]?
        = some (if e.ip % SHCT_PRIME = ip % SHCT_PRIME then maxRRPV - 1 else maxRRPV)) := by
  have hfill := update_miss_slot h cc s cpu set way full_addr ip victim_addr type htype hslot
  refine ⟨?_, ?_, ?_⟩
  · intro hset
    rw [hfill, update_sampler_not_sampled h cc s cpu set full_addr ip type hset, if_pos hsat]
  · intro hnone
    rw [hfill, if_pos (update_sampler_keeps_saturated h cc s cpu set full_addr ip type _
      (find_if_none h s set full_addr hnone) hsat)]
  · intro m e hset he hmatch hfirst
    have hus := congrArg State.SHCT (update_sampler_hit h cc s cpu set full_addr ip type m e
      (find_ne_length_of_mem set _ hset) (find_if_unique _ _ m e he hmatch hfirst).symm he)
    simp only at hus
    by_cases hsig : e.ip % SHCT_PRIME = ip % SHCT_PRIME
    · have hv : (update_sampler h cc s cpu set full_addr ip type).SHCT cpu (ip % SHCT_PRIME)
          = SHCT_MAX - 1 := by
        rw [hus, hsig, hsat, if_pos (by decide), Function.update_same, Function.update_same]
      rw [hfill, hv, if_neg (by decide), if_pos hsig]
    · have hv : (update_sampler h cc s cpu set full_addr ip type).SHCT cpu (ip % SHCT_PRIME)
          = SHCT_MAX := by
        rw [hus]
        split
        · rw [Function.update_same, Function.update_noteq (Ne.symm hsig)]
          exact hsat
        · exact hsat
      rw [hfill, hv, if_pos rfl, if_neg hsig]

/-! ## The saturated example state -/

theorem ex_saturated_rrpv_length : ex_saturated_state.ship_rrpv_values.length = 8192 := by
  unfold ex_saturated_state
  rw [run_rrpv_length, ex_init_rrpv_length]

theorem ex_saturated_rand_sets : ex_saturated_state.ship_rand_sets = ex_sets := by
  unfold ex_saturated_state
  rw [run_rand_sets]
  rfl

set_option maxRecDepth 1000000 in
/-- After `ex_saturating_calls` the counter of core 0 for signature 256 is
saturated. -/
theorem ex_saturated_SHCT : ex_saturated_state.SHCT 0 (256 % SHCT_PRIME) = SHCT_MAX := by
  decide!

set_option maxRecDepth 1000000 in
/-- The sampler range of set 1 after `ex_saturating_calls`: the four lines of
the last misses in set 1, none of them used. -/
theorem ex_saturated_range_one :
    sampler_range ex_host ex_saturated_state 1 =
      [{ valid := true, type := 0, used := 0, address := 655424, ip := 256, last_used := 17 },
        { valid := true, type := 0, used := 0, address := 786496, ip := 256, last_used := 18 },
        { valid := true, type := 0, used := 0, address := 917568, ip := 256, last_used := 19 },
        { valid := true, type := 0, used := 0, address := 1048640, ip := 256,
          last_used := 20 }] := by
  decide!

set_option maxRecDepth 1000000 in
/-- The sampler range of set 15 after `ex_saturating_calls`: three lines of the
last misses in set 15 and one line that was hit before. -/
theorem ex_saturated_range_fifteen :
    sampler_range ex_host ex_saturated_state 15 =
      [{ valid := true, type := 0, used := 0, address := 656320, ip := 256, last_used := 21 },
        { valid := true, type := 0, used := 0, address := 787392, ip := 256, last_used := 22 },
        { valid := true, type := 0, used := 0, address := 918464, ip := 256, last_used := 23 },
        { valid := true, type := 0, used := 1, address := 525248, ip := 256,
          last_used := 16 }] := by
  decide!

/-! ## The claims -/

/-- C1: on a table whose slots of `set` all hold values in `[0, maxRRPV]`, with
associativity at least 1, `find_victim` returns (with any fuel of at least 3
aging passes) a way `w < NUM_WAY`, and in the state it leaves the slot
`set * NUM_WAY + w` holds `maxRRPV`. -/
theorem find_victim_returns_maxRRPV_way (h : Host) (s : State) (set : Nat)
    (hway : 1 ≤ h.NUM_WAY)
    (hlen : set * h.NUM_WAY + h.NUM_WAY ≤ s.ship_rrpv_values.length)
    (hrange : ∀ x ∈ rrpv_set h s.ship_rrpv_values set, 0 ≤ x ∧ x ≤ maxRRPV) :
    ∃ (w : Nat) (s' : State),
      (∀ fuel, 3 ≤ fuel → find_victim h fuel s set = some (w, s')) ∧
      w < h.NUM_WAY ∧ s'.ship_rrpv_values[set * h.NUM_WAY + w]? = some maxRRPV := by
  obtain ⟨k, w, hk, hw, hloop, hslot, _⟩ :=
    find_victim_loop_spec h s.ship_rrpv_values set hway hlen hrange
  refine ⟨w, { s with ship_rrpv_values := aged h s.ship_rrpv_values set k }, ?_, hw, hslot⟩
  intro fuel hfuel
  unfold find_victim
  rw [hloop fuel, if_pos (by omega)]

/-- Witness of C1: set 0 of `ex_full_state`, whose slots hold `2, 2, 2, 2`. -/
theorem find_victim_returns_maxRRPV_way_witness :
    ∃ (w : Nat) (s' : State),
      (∀ fuel, 3 ≤ fuel → find_victim ex_host fuel ex_full_state 0 = some (w, s')) ∧
      w < ex_host.NUM_WAY ∧
      s'.ship_rrpv_values[0 * ex_host.NUM_WAY + w]? = some maxRRPV :=
  find_victim_returns_maxRRPV_way ex_host ex_full_state 0 (by decide)
    (by rw [ex_full_rrpv_length]; decide) (by rw [ex_full_set_zero]; decide)

/-- C2: the RRPV range is an invariant of the reachable states.  Every slot is
in `[0, maxRRPV]` in the state `initialize_replacement` produces; and from a
state whose slots are all in `[0, maxRRPV]`, `find_victim` (on a set of the
table, with fuel for 3 passes) returns and leaves every slot in
`[0, maxRRPV]`, and so does `update_replacement_state` with any arguments. -/
theorem rrpv_range_invariant (h : Host) :
    (∀ (fuel : Nat) (s : State), initialize_replacement h fuel = some s → rrpv_in_range s) ∧
    (∀ (s : State) (set : Nat), 1 ≤ h.NUM_WAY →
      set * h.NUM_WAY + h.NUM_WAY ≤ s.ship_rrpv_values.length → rrpv_in_range s →
      ∃ (w : Nat) (s' : State),
        (∀ fuel, 3 ≤ fuel → find_victim h fuel s set = some (w, s')) ∧ rrpv_in_range s') ∧
    (∀ (current_cycle : Nat) (s : State) (cpu set way full_addr ip victim_addr type hit : Nat),
      rrpv_in_range s →
      rrpv_in_range
        (update_replacement_state h current_cycle s cpu set way full_addr ip victim_addr type
          hit)) := by
  refine ⟨?_, ?_, ?_⟩
  · intro fuel s hs x hx
    rw [initialize_rrpv h fuel s hs] at hx
    rw [List.eq_of_mem_replicate hx]
    decide
  · intro s set hway hlen hinv
    have hrange : ∀ x ∈ rrpv_set h s.ship_rrpv_values set, 0 ≤ x ∧ x ≤ maxRRPV :=
      fun x hx => hinv x (mem_rrpv_set h _ set x hx)
    obtain ⟨k, w, hk, _, hloop, _, hall⟩ :=
      find_victim_loop_spec h s.ship_rrpv_values set hway hlen hrange
    refine ⟨w, { s with ship_rrpv_values := aged h s.ship_rrpv_values set k }, ?_, ?_⟩
    · intro fuel hfuel
      unfold find_victim
      rw [hloop fuel, if_pos (by omega)]
    · intro y hy
      rcases mem_aged h _ set k y hy with ⟨x, hx, rfl⟩ | hy
      · have h0 := (hrange x hx).1
        have h3 := hall x hx
        constructor <;> omega
      · exact hinv y hy
  · intro cc s cpu set way full_addr ip victim_addr type hit hinv y hy
    rcases update_rrpv_cases h cc s cpu set way full_addr ip victim_addr type hit with
      heq | ⟨v, hv, heq⟩
    · rw [heq] at hy
      exact hinv y hy
    · rw [heq] at hy
      rcases List.mem_or_eq_of_mem_set hy with hy | rfl
      · exact hinv y hy
      · unfold maxRRPV
        rcases hv with rfl | rfl | rfl <;> decide

/-- Witness of C2: the initialisation of `ex_host`, then the four fills that
lead to `ex_full_state`, then a victim search in set 0 and a miss fill into
set 1. -/
theorem rrpv_range_invariant_witness :
    (initialize_replacement ex_host 3 = some ex_init_state ∧ rrpv_in_range ex_init_state) ∧
    rrpv_in_range ex_full_state ∧
    (∃ (w : Nat) (s' : State),
      (∀ fuel, 3 ≤ fuel → find_victim ex_host fuel ex_full_state 0 = some (w, s')) ∧
        rrpv_in_range s') ∧
    rrpv_in_range (update_replacement_state ex_host 5 ex_full_state 0 1 0 131136 256 0 0 0) := by
  have hinit := (rrpv_range_invariant ex_host).1 3 ex_init_state ex_host_initializes
  have hfull : rrpv_in_range ex_full_state := by
    unfold ex_full_state ex_fills run
    simp only [List.foldl_cons, List.foldl_nil, apply_access]
    exact (rrpv_range_invariant ex_host).2.2 4 _ 0 0 3 524288 268 0 0 0
      ((rrpv_range_invariant ex_host).2.2 3 _ 0 0 2 393216 264 0 0 0
        ((rrpv_range_invariant ex_host).2.2 2 _ 0 0 1 262144 260 0 0 0
          ((rrpv_range_invariant ex_host).2.2 1 _ 0 0 0 131072 256 0 0 0 hinit)))
  exact ⟨⟨ex_host_initializes, hinit⟩, hfull,
    (rrpv_range_invariant ex_host).2.1 ex_full_state 0 (by decide)
      (by rw [ex_full_rrpv_length]; decide) hfull,
    (rrpv_range_invariant ex_host).2.2 5 ex_full_state 0 1 0 131136 256 0 0 0 hfull⟩

set_option maxRecDepth 100000 in
/-- C3, the claim as stated fails: in `ex_full_state` the slot of (set 0, way 0)
holds 2; a WRITE hit on it leaves it at 2, not at 0. -/
theorem write_hit_keeps_rrpv_counterexample :
    ex_full_state.ship_rrpv_values[0 * ex_host.NUM_WAY + 0]? = some 2 ∧
    (update_replacement_state ex_host 5 ex_full_state 0 0 0 131072 256 0 ex_host.WRITE
        1).ship_rrpv_values[0 * ex_host.NUM_WAY + 0]? = some 2 ∧
      ¬ (update_replacement_state ex_host 5 ex_full_state 0 0 0 131072 256 0 ex_host.WRITE
        1).ship_rrpv_values[0 * ex_host.NUM_WAY + 0]? = some 0 := by
  rw [← rrpv_set_getElem? ex_host _ 0 0 (by decide),
    ← rrpv_set_getElem? ex_host _ 0 0 (by decide)]
  decide

/-- C3, amended: for every state, every slot `(set, way)` of the table and
every access type other than `WRITE`, a call with a non-zero hit flag leaves
the RRPV of the slot equal to 0; a call of type `WRITE` with a non-zero hit
flag leaves the whole state as it was. -/
theorem hit_sets_rrpv_zero (h : Host) (current_cycle : Nat) (s : State)
    (cpu set way full_addr ip victim_addr type hit : Nat)
    (hslot : set * h.NUM_WAY + way < s.ship_rrpv_values.length) (hhit : hit ≠ 0) :
    (type ≠ h.WRITE →
      (update_replacement_state h current_cycle s cpu set way full_addr ip victim_addr type
        hit).ship_rrpv_values[set * h.NUM_WAY + way]? = some 0) ∧
    (type = h.WRITE →
      update_replacement_state h current_cycle s cpu set way full_addr ip victim_addr type hit
        = s) := by
  constructor
  · intro ht
    unfold update_replacement_state
    simp only [if_neg ht, if_pos hhit]
    rw [List.getElem?_set_self (by rw [update_sampler_rrpv]; exact hslot)]
  · intro ht
    unfold update_replacement_state
    simp only [if_pos ht, if_neg hhit]

/-- Witness of the amended C3: a load hit (type 0) on (set 0, way 0) of
`ex_full_state`. -/
theorem hit_sets_rrpv_zero_witness :
    (update_replacement_state ex_host 5 ex_full_state 0 0 0 131072 256 0 0
        1).ship_rrpv_values[0 * ex_host.NUM_WAY + 0]? = some 0 :=
  (hit_sets_rrpv_zero ex_host 5 ex_full_state 0 0 0 131072 256 0 0 1
    (by rw [ex_full_rrpv_length]; decide) (by decide)).1 (by decide)

/-- C4: for every state and every slot `(set, way)` of the table, whether or
not `set` is sampled, a call of type `WRITE` with hit flag 0 sets the RRPV of
the slot to `maxRRPV - 1 = 2` and leaves every SHCT counter of every core and
every sampler entry unchanged. -/
theorem write_miss_frame (h : Host) (current_cycle : Nat) (s : State)
    (cpu set way full_addr ip victim_addr : Nat)
    (hslot : set * h.NUM_WAY + way < s.ship_rrpv_values.length) :
    (update_replacement_state h current_cycle s cpu set way full_addr ip victim_addr h.WRITE
        0).ship_rrpv_values[set * h.NUM_WAY + way]? = some (maxRRPV - 1) ∧
      maxRRPV - 1 = 2 ∧
      (update_replacement_state h current_cycle s cpu set way full_addr ip victim_addr h.WRITE
        0).SHCT = s.SHCT ∧
      (update_replacement_state h current_cycle s cpu set way full_addr ip victim_addr h.WRITE
        0).sampler = s.sampler := by
  rw [update_write_miss]
  exact ⟨List.getElem?_set_self hslot, by decide, rfl, rfl⟩

/-- Witness of C4: a write miss into (set 1, way 1) of `ex_sampled_state`; set 1
is sampled. -/
theorem write_miss_frame_witness :
    1 ∈ ex_sampled_state.ship_rand_sets ∧
      (update_replacement_state ex_host 7 ex_sampled_state 0 1 1 262208 304 0 ex_host.WRITE
        0).ship_rrpv_values[1 * ex_host.NUM_WAY + 1]? = some (maxRRPV - 1) ∧
      maxRRPV - 1 = 2 ∧
      (update_replacement_state ex_host 7 ex_sampled_state 0 1 1 262208 304 0 ex_host.WRITE
        0).SHCT = ex_sampled_state.SHCT ∧
      (update_replacement_state ex_host 7 ex_sampled_state 0 1 1 262208 304 0 ex_host.WRITE
        0).sampler = ex_sampled_state.sampler :=
  ⟨by rw [ex_sampled_rand_sets]; decide,
    write_miss_frame ex_host 7 ex_sampled_state 0 1 1 262208 304 0
      (by rw [ex_sampled_rrpv_length]; decide)⟩

/-- C5: a call with hit flag 0 and a type other than `WRITE` sets the RRPV of
the slot `(set, way)` to `maxRRPV = 3` when the SHCT counter of the accessing
core at index `ip % SHCT_PRIME`, read after the sampler step of the same call,
equals `SHCT_MAX = 7`, and to `maxRRPV - 1 = 2` otherwise; and after a call
with hit flag 0 of any type the RRPV of the slot is not 0. -/
theorem miss_fill_rrpv (h : Host) (current_cycle : Nat) (s : State)
    (cpu set way full_addr ip victim_addr type : Nat)
    (hslot : set * h.NUM_WAY + way < s.ship_rrpv_values.length) :
    (type ≠ h.WRITE →
      (update_replacement_state h current_cycle s cpu set way full_addr ip victim_addr type
        0).ship_rrpv_values[set * h.NUM_WAY + way]? =
        some (if (update_sampler h current_cycle s cpu set full_addr ip type).SHCT cpu
            (ip % SHCT_PRIME) = SHCT_MAX then maxRRPV else maxRRPV - 1)) ∧
    (update_replacement_state h current_cycle s cpu set way full_addr ip victim_addr type
      0).ship_rrpv_values[set * h.NUM_WAY + way]? ≠ some 0 ∧
    maxRRPV = 3 ∧ maxRRPV - 1 = 2 ∧ SHCT_MAX = 7 := by
  have hnw : type ≠ h.WRITE →
      (update_replacement_state h current_cycle s cpu set way full_addr ip victim_addr type
        0).ship_rrpv_values[set * h.NUM_WAY + way]? =
        some (if (update_sampler h current_cycle s cpu set full_addr ip type).SHCT cpu
            (ip % SHCT_PRIME) = SHCT_MAX then maxRRPV else maxRRPV - 1) := by
    intro ht
    unfold update_replacement_state
    simp only [if_neg ht, ne_eq, not_true_eq_false, if_false]
    split
    · simp only [update_sampler_rrpv]
      rw [List.getElem?_set_self (by simpa using hslot)]
    · simp only [update_sampler_rrpv]
      rw [List.getElem?_set_self hslot]
  refine ⟨hnw, ?_, by decide, by decide, by decide⟩
  by_cases ht : type = h.WRITE
  · subst ht
    rw [update_write_miss]
    simp only
    rw [List.getElem?_set_self hslot]
    decide
  · rw [hnw ht]
    split <;> decide

/-- Witness of C5: a load miss filled into (set 1, way 1) of
`ex_sampled_state`. -/
theorem miss_fill_rrpv_witness :
    (0 ≠ ex_host.WRITE →
      (update_replacement_state ex_host 7 ex_sampled_state 0 1 1 262208 304 0 0
        0).ship_rrpv_values[1 * ex_host.NUM_WAY + 1]? =
        some (if (update_sampler ex_host 7 ex_sampled_state 0 1 262208 304 0).SHCT 0
            (304 % SHCT_PRIME) = SHCT_MAX then maxRRPV else maxRRPV - 1)) ∧
    (update_replacement_state ex_host 7 ex_sampled_state 0 1 1 262208 304 0 0
      0).ship_rrpv_values[1 * ex_host.NUM_WAY + 1]? ≠ some 0 ∧
    maxRRPV = 3 ∧ maxRRPV - 1 = 2 ∧ SHCT_MAX = 7 :=
  miss_fill_rrpv ex_host 7 ex_sampled_state 0 1 1 262208 304 0 0
    (by rw [ex_sampled_rrpv_length]; decide)

/-- C6: starting from zero-initialised SHCT arrays, after any finite sequence
of `update_replacement_state` calls (any cores, sets, ways, addresses,
signatures, types, hit flags and cycle values) every SHCT counter of every
core is at most `SHCT_MAX = 7` (and at least 0, being unsigned). -/
theorem SHCT_range_invariant (h : Host) (s : State) (calls : List Access)
    (hzero : ∀ c i, s.SHCT c i = 0) :
    ∀ c i, 0 ≤ (run h s calls).SHCT c i ∧ (run h s calls).SHCT c i ≤ SHCT_MAX ∧
      SHCT_MAX = 7 := by
  intro c i
  refine ⟨Nat.zero_le _, ?_, rfl⟩
  apply run_SHCT_le h calls s
  intro c' i'
  rw [hzero c' i']
  exact Nat.zero_le _

/-- Witness of C6: the counter of core 0 at index 256 after the calls
`ex_calls` from `ex_init_state`. -/
theorem SHCT_range_invariant_witness :
    0 ≤ (run ex_host ex_init_state ex_calls).SHCT 0 256 ∧
      (run ex_host ex_init_state ex_calls).SHCT 0 256 ≤ SHCT_MAX ∧ SHCT_MAX = 7 :=
  SHCT_range_invariant ex_host ex_init_state ex_calls (fun _ _ => rfl) 0 256

/-- C7: whenever `initialize_replacement` completes with a state `s`, the
sampled-sets list of `s` has exactly `256 * NUM_CPUS` entries and is strictly
ascending (sorted, no duplicates); and it is a function of
`(NUM_SET, NUM_CPUS)` only: any completed initialisation of an instance with
the same `NUM_SET` and `NUM_CPUS` (whatever the rest of the host and the fuel)
gives the same list. -/
theorem sampled_sets_sorted_deterministic (h : Host) (fuel : Nat) (s : State)
    (hs : initialize_replacement h fuel = some s) :
    s.ship_rand_sets.length = 256 * h.NUM_CPUS ∧
      s.ship_rand_sets.Pairwise (· < ·) ∧
      ∀ (h' : Host) (fuel' : Nat) (s' : State), h'.NUM_SET = h.NUM_SET →
        h'.NUM_CPUS = h.NUM_CPUS → initialize_replacement h' fuel' = some s' →
        s'.ship_rand_sets = s.ship_rand_sets := by
  obtain ⟨seed, hloop⟩ := initialize_rand_sets h fuel s hs
  obtain ⟨hsorted, hlen⟩ :=
    sample_loop_sorted h.NUM_SET fuel _ _ [] _ List.Pairwise.nil hloop
  refine ⟨?_, hsorted, ?_⟩
  · simpa [SAMPLER_SET] using hlen
  · intro h' fuel' s' hset hcpu hs'
    obtain ⟨seed', hloop'⟩ := initialize_rand_sets h' fuel' s' hs'
    have hsame : SAMPLER_SET h' = SAMPLER_SET h := by
      unfold SAMPLER_SET
      rw [hcpu]
    rw [hset, hsame] at hloop'
    have := sample_loop_fuel_irrelevant _ _ _ _ _ _ _ _ hloop' hloop
    exact congrArg Prod.snd this

/-- Witness of C7: the initialisation of `ex_host` completes with fuel 3, in
`ex_init_state`, whose sampled-sets list is `ex_sets`. -/
theorem sampled_sets_sorted_deterministic_witness :
    initialize_replacement ex_host 3 = some ex_init_state ∧
      ex_init_state.ship_rand_sets.length = 256 * ex_host.NUM_CPUS ∧
      ex_init_state.ship_rand_sets.Pairwise (· < ·) ∧
      ∀ (h' : Host) (fuel' : Nat) (s' : State), h'.NUM_SET = ex_host.NUM_SET →
        h'.NUM_CPUS = ex_host.NUM_CPUS → initialize_replacement h' fuel' = some s' →
        s'.ship_rand_sets = ex_init_state.ship_rand_sets :=
  ⟨ex_host_initializes,
    sampled_sets_sorted_deterministic ex_host 3 ex_init_state ex_host_initializes⟩

/-- C8: `initialize_replacement` terminates for every configuration with
`256 * NUM_CPUS ≤ NUM_SET < 2 ^ 32` (in particular for every `NUM_CPUS ≥ 1`),
the seed being held in 64-bit unsigned arithmetic: there is a state that it
returns with every fuel of at least `2 ^ 64` iterations per rejection loop.
The reason is the second part: on a strictly ascending list of fewer than
`NUM_SET` entries and from any 64-bit seed, the duplicate-rejection loop of the
generator (multiplier 1103515245, increment 12345, value
`(seed / 65536) % NUM_SET`) exits, with a set index below `NUM_SET` that is
not yet in the list. -/
theorem initialize_replacement_terminates (h : Host)
    (hsets : 256 * h.NUM_CPUS ≤ h.NUM_SET) (hN : h.NUM_SET < 2 ^ 32) :
    (∃ s, ∀ fuel, 2 ^ 64 ≤ fuel → initialize_replacement h fuel = some s) ∧
    (∀ (sets : List Nat) (rand_seed : Nat), sets.Pairwise (· < ·) →
      sets.length < h.NUM_SET → rand_seed < 2 ^ 64 →
      ∃ r, reject_loop h.NUM_SET sets (2 ^ 64) rand_seed (seed_val h.NUM_SET rand_seed)
          (lower_bound (seed_val h.NUM_SET rand_seed) sets) = some r ∧
        r.2.1 ∉ sets ∧ r.2.1 < h.NUM_SET) := by
  have hN48 : h.NUM_SET ≤ 2 ^ 48 := by
    have : (2 : Nat) ^ 32 ≤ 2 ^ 48 := Nat.pow_le_pow_right (by norm_num) (by norm_num)
    omega
  refine ⟨initialize_returns h hsets hN48, ?_⟩
  intro sets seed hs hlen hseed
  obtain ⟨r, hr⟩ := reject_loop_returns h.NUM_SET sets seed hs hlen hN48 hseed
  obtain ⟨hval, hnot, _, _⟩ := sample_step h.NUM_SET _ seed sets r hs hr
  refine ⟨r, hr, hnot, ?_⟩
  rw [hval]
  exact Nat.mod_lt _ (by omega)

/-- Witness of C8: `ex_host` has one core and 2048 sets. -/
theorem initialize_replacement_terminates_witness :
    1 ≤ ex_host.NUM_CPUS ∧
    (∃ s, ∀ fuel, 2 ^ 64 ≤ fuel → initialize_replacement ex_host fuel = some s) ∧
    (∀ (sets : List Nat) (rand_seed : Nat), sets.Pairwise (· < ·) →
      sets.length < ex_host.NUM_SET → rand_seed < 2 ^ 64 →
      ∃ r, reject_loop ex_host.NUM_SET sets (2 ^ 64) rand_seed
          (seed_val ex_host.NUM_SET rand_seed)
          (lower_bound (seed_val ex_host.NUM_SET rand_seed) sets) = some r ∧
        r.2.1 ∉ sets ∧ r.2.1 < ex_host.NUM_SET) :=
  ⟨by decide, initialize_replacement_terminates ex_host (by decide) (by decide)⟩

/-- C9: on a set whose slots all hold values in `[0, maxRRPV]`, with
associativity at least 1, the aging loop of `find_victim` makes exactly `k`
increment passes for some `k ≤ 3`: the function returns its result `r` with
any fuel of at least `k` passes and with none below `k`. -/
theorem find_victim_at_most_three_passes (h : Host) (s : State) (set : Nat)
    (hway : 1 ≤ h.NUM_WAY)
    (hlen : set * h.NUM_WAY + h.NUM_WAY ≤ s.ship_rrpv_values.length)
    (hrange : ∀ x ∈ rrpv_set h s.ship_rrpv_values set, 0 ≤ x ∧ x ≤ maxRRPV) :
    ∃ (k : Nat) (r : Nat × State), k ≤ 3 ∧
      ∀ fuel, find_victim h fuel s set = if k ≤ fuel then some r else none := by
  obtain ⟨k, w, hk, _, hloop, _, _⟩ :=
    find_victim_loop_spec h s.ship_rrpv_values set hway hlen hrange
  refine ⟨k, (w, { s with ship_rrpv_values := aged h s.ship_rrpv_values set k }), hk, ?_⟩
  intro fuel
  unfold find_victim
  rw [hloop fuel]
  by_cases hkf : k ≤ fuel
  · rw [if_pos hkf, if_pos hkf]
  · rw [if_neg hkf, if_neg hkf]

/-- Witness of C9: set 0 of `ex_full_state`, whose slots hold `2, 2, 2, 2`. -/
theorem find_victim_at_most_three_passes_witness :
    ∃ (k : Nat) (r : Nat × State), k ≤ 3 ∧
      ∀ fuel, find_victim ex_host fuel ex_full_state 0 = if k ≤ fuel then some r else none :=
  find_victim_at_most_three_passes ex_host ex_full_state 0 (by decide)
    (by rw [ex_full_rrpv_length]; decide) (by rw [ex_full_set_zero]; decide)

/-- C10: in a call of a type other than `WRITE` on a sampled set, when the
entry at offset `m` of the set's sampler range is the first that matches the
address (a sampler hit) and `e` is that entry, the SHCT counter of the
accessing core at index `e.ip % SHCT_PRIME` is decreased by exactly 1 if it was
positive and stays 0 if it was 0, and every other SHCT counter is unchanged. -/
theorem sampler_hit_decrements (h : Host) (current_cycle : Nat) (s : State)
    (cpu set way full_addr ip victim_addr type hit : Nat) (m : Nat) (e : SAMPLER_class)
    (htype : type ≠ h.WRITE)
    (hsampled : find set s.ship_rand_sets ≠ s.ship_rand_sets.length)
    (hm : m = find_if (h.eq_addr full_addr (8 + h.lg2 h.NUM_WAY)) (sampler_range h s set))
    (hmatch : (sampler_range h s set)[m]? = some e) :
    let s' := update_replacement_state h current_cycle s cpu set way full_addr ip victim_addr
      type hit
    (0 < s.SHCT cpu (e.ip % SHCT_PRIME) →
      s'.SHCT cpu (e.ip % SHCT_PRIME) + 1 = s.SHCT cpu (e.ip % SHCT_PRIME)) ∧
    (s.SHCT cpu (e.ip % SHCT_PRIME) = 0 → s'.SHCT cpu (e.ip % SHCT_PRIME) = 0) ∧
    (∀ c i, ¬ (c = cpu ∧ i = e.ip % SHCT_PRIME) → s'.SHCT c i = s.SHCT c i) := by
  intro s'
  have hs' : s'.SHCT = (update_sampler h current_cycle s cpu set full_addr ip type).SHCT :=
    update_SHCT_of_ne_write h current_cycle s cpu set way full_addr ip victim_addr type hit htype
  have hlt : m < (sampler_range h s set).length := by
    by_contra hge
    rw [List.getElem?_eq_none (by omega)] at hmatch
    exact absurd hmatch (by simp)
  have he : s.sampler.getD (find set s.ship_rand_sets + m) {} = e := by
    unfold sampler_range at hmatch hlt
    rw [List.getElem?_take_of_lt (by simp at hlt; omega), List.getElem?_drop] at hmatch
    rw [List.getD_eq_getElem?_getD, hmatch]
    rfl
  have hupd : (update_sampler h current_cycle s cpu set full_addr ip type).SHCT =
      if s.SHCT cpu (e.ip % SHCT_PRIME) > 0 then
        Function.update s.SHCT cpu
          (Function.update (s.SHCT cpu) (e.ip % SHCT_PRIME) (s.SHCT cpu (e.ip % SHCT_PRIME) - 1))
      else s.SHCT := by
    unfold update_sampler
    unfold sampler_range at hm hlt
    simp only [if_pos hsampled]
    rw [← hm, if_pos (by omega), he]
  rw [hs', hupd]
  refine ⟨?_, ?_, ?_⟩
  · intro hpos
    rw [if_pos hpos]
    simp only [Function.update_same]
    omega
  · intro hz
    rw [if_neg (by omega)]
    exact hz
  · intro c i hne
    split
    · by_cases hc : c = cpu
      · subst hc
        have hi : i ≠ e.ip % SHCT_PRIME := fun hi => hne ⟨rfl, hi⟩
        simp only [Function.update_same, Function.update_noteq hi]
      · simp only [Function.update_noteq hc]
    · rfl

set_option maxRecDepth 100000 in
/-- Witness of C10: in `ex_sampled_state` a second load of address 131136 in
set 1 matches the first entry of the sampler range, which has signature 256;
the counter of core 0 at index 256 is 0 and stays 0. -/
theorem sampler_hit_decrements_witness :
    (0 < ex_sampled_state.SHCT 0 (256 % SHCT_PRIME) →
      (update_replacement_state ex_host 6 ex_sampled_state 0 1 0 131136 300 0 0 1).SHCT 0
        (256 % SHCT_PRIME) + 1 = ex_sampled_state.SHCT 0 (256 % SHCT_PRIME)) ∧
    (ex_sampled_state.SHCT 0 (256 % SHCT_PRIME) = 0 →
      (update_replacement_state ex_host 6 ex_sampled_state 0 1 0 131136 300 0 0 1).SHCT 0
        (256 % SHCT_PRIME) = 0) ∧
    (∀ c i, ¬ (c = 0 ∧ i = 256 % SHCT_PRIME) →
      (update_replacement_state ex_host 6 ex_sampled_state 0 1 0 131136 300 0 0 1).SHCT c i
        = ex_sampled_state.SHCT c i) :=
  sampler_hit_decrements ex_host 6 ex_sampled_state 0 1 0 131136 300 0 0 1 0
    { valid := true, type := 0, used := 0, address := 131136, ip := 256, last_used := 1 }
    (by decide) (by rw [ex_sampled_rand_sets]; decide) (by rw [ex_sampled_range]; decide)
    (by rw [ex_sampled_range]; rfl)

/-- C11: on a set whose RRPV slots all equal `maxRRPV` (as right after
initialisation), with associativity at least 1, `find_victim` returns way 0
and leaves the state as it is (no aging pass: any fuel will do); and a
following `update_replacement_state` on (set, way 0) with a type other than
`WRITE`, hit flag 0 and the SHCT counter of the access's signature equal to 0
before the call sets the RRPV of (set, way 0) to 2. -/
theorem fresh_set_victim_then_fill (h : Host) (s : State) (set : Nat)
    (hway : 1 ≤ h.NUM_WAY)
    (hlen : set * h.NUM_WAY + h.NUM_WAY ≤ s.ship_rrpv_values.length)
    (hall : ∀ x ∈ rrpv_set h s.ship_rrpv_values set, x = maxRRPV) :
    (∀ fuel, find_victim h fuel s set = some (0, s)) ∧
    (∀ (current_cycle cpu full_addr ip victim_addr type : Nat), type ≠ h.WRITE →
      s.SHCT cpu (ip % SHCT_PRIME) = 0 →
      (update_replacement_state h current_cycle s cpu set 0 full_addr ip victim_addr type
        0).ship_rrpv_values[set * h.NUM_WAY + 0]? = some 2) := by
  have hl := rrpv_set_length h s.ship_rrpv_values set hlen
  constructor
  · intro fuel
    obtain ⟨x, rest, hcons⟩ : ∃ x rest, rrpv_set h s.ship_rrpv_values set = x :: rest := by
      cases hs : rrpv_set h s.ship_rrpv_values set with
      | nil =>
        rw [hs] at hl
        simp at hl
        omega
      | cons x rest => exact ⟨x, rest, rfl⟩
    have hx : x = maxRRPV := hall x (by rw [hcons]; exact List.mem_cons_self _ _)
    have hloop := find_victim_loop_eq h set 0 fuel s.ship_rrpv_values hlen
      (by intro y hy; rw [hall y hy]; simp)
      ⟨x, by rw [hcons]; exact List.mem_cons_self _ _, by rw [hx]; simp⟩
    have hfind : find (maxRRPV - ((0 : Nat) : Int)) (rrpv_set h s.ship_rrpv_values set) = 0 := by
      rw [hcons, hx]
      simp [find, find_if]
    unfold find_victim
    rw [hloop, hfind, aged_zero]
    simp
  · intro cc cpu full_addr ip victim_addr type ht hzero
    rw [update_miss_slot h cc s cpu set 0 full_addr ip victim_addr type ht (by omega)]
    have hle := update_sampler_SHCT_le_succ h cc s cpu set full_addr ip type cpu (ip % SHCT_PRIME)
    rw [hzero] at hle
    rw [if_neg (by unfold SHCT_MAX; omega)]
    rfl

/-- Witness of C11: set 5 of `ex_init_state` (associativity 4), and a load miss
with signature 256 (0x100). -/
theorem fresh_set_victim_then_fill_witness :
    (∀ fuel, find_victim ex_host fuel ex_init_state 5 = some (0, ex_init_state)) ∧
    (∀ (current_cycle cpu full_addr ip victim_addr type : Nat), type ≠ ex_host.WRITE →
      ex_init_state.SHCT cpu (ip % SHCT_PRIME) = 0 →
      (update_replacement_state ex_host current_cycle ex_init_state cpu 5 0 full_addr ip
        victim_addr type 0).ship_rrpv_values[5 * ex_host.NUM_WAY + 0]? = some 2) :=
  fresh_set_victim_then_fill ex_host ex_init_state 5 (by decide)
    (by rw [ex_init_rrpv_length]; decide) (by decide)

set_option maxRecDepth 1000000 in
/-- C12, the claim as stated fails: no sequence of calls from an initialised
state, each of which is a sampler miss that evicts a sampler entry whose used
flag is clear, brings any SHCT counter to `SHCT_MAX`: such calls change no
counter, and the counters start at 0.  And a saturated counter does not by
itself give `maxRRPV` to the next fill: in `ex_saturated_state`, where the
counter of core 0 for signature 256 is `SHCT_MAX`, a load miss of core 0 with
signature 256 on address 655424 of the sampled set 1 is a sampler hit, which
decrements the counter before line 128 reads it, and the filled slot gets
`maxRRPV - 1`. -/
theorem unused_evictions_never_saturate :
    (¬ ∃ (h : Host) (fuel : Nat) (s : State) (calls : List Access) (c i : Nat),
      initialize_replacement h fuel = some s ∧ all_evict_unused h s calls ∧
        (run h s calls).SHCT c i = SHCT_MAX) ∧
    ex_saturated_state.SHCT 0 (256 % SHCT_PRIME) = SHCT_MAX ∧
    (update_replacement_state ex_host 24 ex_saturated_state 0 1 0 655424 256 0 0
        0).ship_rrpv_values[1 * ex_host.NUM_WAY + 0]? = some (maxRRPV - 1) := by
  refine ⟨?_, ex_saturated_SHCT, ?_⟩
  · rintro ⟨h, fuel, s, calls, c, i, hinit, hall, hmax⟩
    rw [all_evict_unused_SHCT h calls s hall, initialize_SHCT h fuel s hinit] at hmax
    simp [SHCT_MAX] at hmax
  · rw [← rrpv_set_getElem? ex_host _ 1 0 (by decide)]
    decide!

set_option maxRecDepth 1000000 in
/-- C12, amended: there is a sequence of calls from the initialised state that
drives the SHCT counter of a signature up to `SHCT_MAX = 7` by sampler misses
that evict sampler entries whose used flag is set: after `ex_saturating_calls`
from `ex_init_state`, whose last 7 calls are such misses, the counter of core
0 for signature 256 is `SHCT_MAX`.  After it, the next miss fill of core 0 of
a type other than `WRITE` with that signature, into any slot of the table,
sets the RRPV of the filled slot to `maxRRPV = 3` if the counter still equals
`SHCT_MAX` after the sampler step of the same call, and to `maxRRPV - 1`
otherwise.  The counter is still `SHCT_MAX` when the set is not sampled and
when the sampler step is a sampler miss; when the sampler step is a sampler
hit on an entry `e`, the slot gets `maxRRPV - 1` if `e` holds that signature
(the hit decrements the counter to 6 first) and `maxRRPV` if it holds another.
Three such fills are evaluated: into set 0, which is not sampled (RRPV 3), and
into the sampled sets 1 and 6, on lines that are in their sampler ranges
(RRPV 2). -/
theorem used_evictions_saturate :
    initialize_replacement ex_host 3 = some ex_init_state ∧
    (ex_saturating_calls.drop 16).length = 7 ∧
    all_evict_used ex_host (run ex_host ex_init_state (ex_saturating_calls.take 16))
      (ex_saturating_calls.drop 16) ∧
    (run ex_host ex_init_state (ex_saturating_calls.take 16)).SHCT 0 (256 % SHCT_PRIME) = 0 ∧
    (run ex_host ex_init_state ex_saturating_calls).SHCT 0 (256 % SHCT_PRIME) = SHCT_MAX ∧
    (update_replacement_state ex_host 24 (run ex_host ex_init_state ex_saturating_calls) 0 0 0
        131072 256 0 0 0).ship_rrpv_values[0 * ex_host.NUM_WAY + 0]? = some maxRRPV ∧
    SHCT_MAX = 7 ∧ maxRRPV = 3 ∧
    (∀ (current_cycle set way full_addr ip victim_addr type : Nat), type ≠ ex_host.WRITE →
      set < ex_host.NUM_SET → way < ex_host.NUM_WAY → ip % SHCT_PRIME = 256 % SHCT_PRIME →
      (update_replacement_state ex_host current_cycle ex_saturated_state 0 set way full_addr ip
          victim_addr type 0).ship_rrpv_values[set * ex_host.NUM_WAY + way]?
        = some (if (update_sampler ex_host current_cycle ex_saturated_state 0 set full_addr ip
            type).SHCT 0 (256 % SHCT_PRIME) = SHCT_MAX then maxRRPV else maxRRPV - 1) ∧
      (set ∉ ex_saturated_state.ship_rand_sets →
        (update_replacement_state ex_host current_cycle ex_saturated_state 0 set way full_addr
          ip victim_addr type 0).ship_rrpv_values[set * ex_host.NUM_WAY + way]?
          = some maxRRPV) ∧
      ((∀ x ∈ sampler_range ex_host ex_saturated_state set,
          ex_host.eq_addr full_addr (8 + ex_host.lg2 ex_host.NUM_WAY) x = false) →
        (update_replacement_state ex_host current_cycle ex_saturated_state 0 set way full_addr
          ip victim_addr type 0).ship_rrpv_values[set * ex_host.NUM_WAY + way]?
          = some maxRRPV) ∧
      (∀ (m : Nat) (e : SAMPLER_class), set ∈ ex_saturated_state.ship_rand_sets →
        (sampler_range ex_host ex_saturated_state set)[m]? = some e →
        ex_host.eq_addr full_addr (8 + ex_host.lg2 ex_host.NUM_WAY) e = true →
        (∀ j x, j < m → (sampler_range ex_host ex_saturated_state set)[j]? = some x →
          ex_host.eq_addr full_addr (8 + ex_host.lg2 ex_host.NUM_WAY) x = false) →
        (update_replacement_state ex_host current_cycle ex_saturated_state 0 set way full_addr
          ip victim_addr type 0).ship_rrpv_values[set * ex_host.NUM_WAY + way]?
          = some (if e.ip % SHCT_PRIME = 256 % SHCT_PRIME then maxRRPV - 1 else maxRRPV))) ∧
    (update_replacement_state ex_host 24 ex_saturated_state 0 1 0 655424 256 0 0
        0).ship_rrpv_values[1 * ex_host.NUM_WAY + 0]? = some (maxRRPV - 1) ∧
    (update_replacement_state ex_host 24 ex_saturated_state 0 6 0 786816 256 0 0
        0).ship_rrpv_values[6 * ex_host.NUM_WAY + 0]? = some (maxRRPV - 1) := by
  refine ⟨ex_host_initializes, by decide, ?_, ?_, ?_, ?_, rfl, rfl, ?_, ?_, ?_⟩
  · decide!
  · decide!
  · decide!
  · rw [← rrpv_set_getElem? ex_host _ 0 0 (by decide)]
    decide!
  · intro cc set way full_addr ip victim_addr type htype hset hway hip
    have hset2 : set < 2048 := hset
    have hway2 : way < 4 := hway
    have hslot : set * ex_host.NUM_WAY + way < ex_saturated_state.ship_rrpv_values.length := by
      rw [ex_saturated_rrpv_length]
      show set * 4 + way < 8192
      omega
    have hsat : ex_saturated_state.SHCT 0 (ip % SHCT_PRIME) = SHCT_MAX := by
      rw [hip]
      exact ex_saturated_SHCT
    obtain ⟨h1, h2, h3⟩ := saturated_miss_fill ex_host cc ex_saturated_state 0 set way full_addr
      ip victim_addr type htype hslot hsat
    rw [hip] at h3
    refine ⟨?_, h1, h2, h3⟩
    rw [update_miss_slot ex_host cc ex_saturated_state 0 set way full_addr ip victim_addr type
      htype hslot, hip]
  · rw [← rrpv_set_getElem? ex_host _ 1 0 (by decide)]
    decide!
  · rw [← rrpv_set_getElem? ex_host _ 6 0 (by decide)]
    decide!

set_option maxRecDepth 100000 in
/-- Witness of the amended C12: in `ex_saturated_state`, a load miss with
signature 256 filled into set 0, which is not sampled, gets `maxRRPV`; one
filled into the sampled set 15 on a new line (a sampler miss) gets `maxRRPV`;
one filled into the sampled set 1 on the line of its first sampler entry (a
sampler hit on signature 256) gets `maxRRPV - 1`. -/
theorem used_evictions_saturate_witness :
    (update_replacement_state ex_host 24 ex_saturated_state 0 0 0 131072 256 0 0
        0).ship_rrpv_values[0 * ex_host.NUM_WAY + 0]? = some maxRRPV ∧
    (update_replacement_state ex_host 24 ex_saturated_state 0 15 0 1049536 256 0 0
        0).ship_rrpv_values[15 * ex_host.NUM_WAY + 0]? = some maxRRPV ∧
    (update_replacement_state ex_host 24 ex_saturated_state 0 1 0 655424 256 0 0
        0).ship_rrpv_values[1 * ex_host.NUM_WAY + 0]?
      = some (if 256 % SHCT_PRIME = 256 % SHCT_PRIME then maxRRPV - 1 else maxRRPV) :=
  ⟨(used_evictions_saturate.2.2.2.2.2.2.2.2.1 24 0 0 131072 256 0 0 (by decide) (by decide)
      (by decide) rfl).2.1 (by rw [ex_saturated_rand_sets]; decide),
    (used_evictions_saturate.2.2.2.2.2.2.2.2.1 24 15 0 1049536 256 0 0 (by decide) (by decide)
      (by decide) rfl).2.2.1 (by rw [ex_saturated_range_fifteen]; decide),
    (used_evictions_saturate.2.2.2.2.2.2.2.2.1 24 1 0 655424 256 0 0 (by decide) (by decide)
      (by decide) rfl).2.2.2 0
      { valid := true, type := 0, used := 0, address := 655424, ip := 256, last_used := 17 }
      (by rw [ex_saturated_rand_sets]; decide) (by rw [ex_saturated_range_one]; rfl)
      (by decide) (fun j _ hj _ => absurd hj (by omega))⟩

/-- C13: the SHCT arrays are independent per core.  A call made with core id
`cpu` leaves the SHCT array of every other core unchanged; and what the call
does to the RRPV table (so the RRPV chosen for a miss fill) and to the array
of `cpu` depends on the array of `cpu` only: it is the same from any state
`s₂` that differs from `s` at most in the arrays of other cores. -/
theorem SHCT_independent_per_core (h : Host) (current_cycle : Nat) (s : State)
    (cpu set way full_addr ip victim_addr type hit : Nat) :
    (∀ c, c ≠ cpu →
      (update_replacement_state h current_cycle s cpu set way full_addr ip victim_addr type
        hit).SHCT c = s.SHCT c) ∧
    (∀ s₂ : State, s₂.ship_rand_sets = s.ship_rand_sets → s₂.sampler = s.sampler →
      s₂.ship_rrpv_values = s.ship_rrpv_values → s₂.SHCT cpu = s.SHCT cpu →
      (update_replacement_state h current_cycle s₂ cpu set way full_addr ip victim_addr type
          hit).ship_rrpv_values
        = (update_replacement_state h current_cycle s cpu set way full_addr ip victim_addr
          type hit).ship_rrpv_values ∧
      (update_replacement_state h current_cycle s₂ cpu set way full_addr ip victim_addr type
          hit).SHCT cpu
        = (update_replacement_state h current_cycle s cpu set way full_addr ip victim_addr
          type hit).SHCT cpu) := by
  constructor
  · intro c hc
    exact update_SHCT_other h current_cycle s cpu set way full_addr ip victim_addr type hit c hc
  · intro s₂ hsets hsampler hrrpv hcore
    exact update_congr h current_cycle s₂ s cpu set way full_addr ip victim_addr type hit hsets
      hsampler hrrpv hcore

/-- Witness of C13: a load miss of core 0 into (set 1, way 0) after
initialisation leaves the array of core 1 alone, and does the same to the RRPV
table when every counter of core 1 is saturated. -/
theorem SHCT_independent_per_core_witness :
    (update_replacement_state ex_host 1 ex_init_state 0 1 0 131136 256 0 0 0).SHCT 1
      = ex_init_state.SHCT 1 ∧
    (update_replacement_state ex_host 1 ex_other_core_state 0 1 0 131136 256 0 0
        0).ship_rrpv_values
      = (update_replacement_state ex_host 1 ex_init_state 0 1 0 131136 256 0 0
        0).ship_rrpv_values :=
  ⟨(SHCT_independent_per_core ex_host 1 ex_init_state 0 1 0 131136 256 0 0 0).1 1 (by decide),
    ((SHCT_independent_per_core ex_host 1 ex_init_state 0 1 0 131136 256 0 0 0).2
      ex_other_core_state rfl rfl rfl (funext fun _ => rfl)).1⟩

set_option maxRecDepth 1000000 in
/-- C14, evaluated at the failing input: after initialisation of `ex_host` (4 ways) the
sampler table has `SAMPLER_SET * NUM_WAY` entries, set 1 is at position 0 of
the sampled-sets list and set 6 at position 1; one load miss to set 6 writes
the entry at offset 1 of the sampler range that is searched for set 1: the
ranges of the two sets share slots. -/
theorem sampler_ranges_overlap :
    initialize_replacement ex_host 3 = some ex_init_state ∧
    ex_init_state.sampler.length = SAMPLER_SET ex_host * ex_host.NUM_WAY ∧
    find 1 ex_init_state.ship_rand_sets = 0 ∧ find 6 ex_init_state.ship_rand_sets = 1 ∧
    sampler_range ex_host ex_init_state 1 = [{}, {}, {}, {}] ∧
    sampler_range ex_host
        (update_replacement_state ex_host 1 ex_init_state 0 6 0 131456 256 0 0 0) 1
      = [{}, { valid := true, type := 0, used := 0, address := 131456, ip := 256,
               last_used := 1 }, {}, {}] := by
  refine ⟨ex_host_initializes, ?_, ?_, ?_, ?_, ?_⟩
  · unfold ex_init_state
    simp only [List.length_replicate]
  · decide!
  · decide!
  · decide!
  · decide!

/-- C15: in a call of a type other than `WRITE` on a sampled set in which no
entry of the set's sampler range matches the address (a sampler miss), let `e`
be the entry of the range with the smallest `last_used` (the first such, at
offset `m`).  If the used flag of `e` is set, the SHCT counter of the accessing
core at index `e.ip % SHCT_PRIME` goes up by exactly 1 when it is below
`SHCT_MAX` and stays as it is when it is at `SHCT_MAX`; if the used flag of `e`
is clear, no SHCT counter changes; in both cases no other counter changes. -/
theorem sampler_miss_increments (h : Host) (current_cycle : Nat) (s : State)
    (cpu set way full_addr ip victim_addr type hit : Nat) (m : Nat) (e : SAMPLER_class)
    (htype : type ≠ h.WRITE) (hsampled : set ∈ s.ship_rand_sets)
    (hnone : ∀ x ∈ sampler_range h s set,
      h.eq_addr full_addr (8 + h.lg2 h.NUM_WAY) x = false)
    (he : (sampler_range h s set)[m]? = some e)
    (hmin : ∀ x ∈ sampler_range h s set, e.last_used ≤ x.last_used)
    (hfirst : ∀ j x, j < m → (sampler_range h s set)[j]? = some x →
      e.last_used < x.last_used) :
    (e.used ≠ 0 → s.SHCT cpu (e.ip % SHCT_PRIME) < SHCT_MAX →
      (update_replacement_state h current_cycle s cpu set way full_addr ip victim_addr type
        hit).SHCT cpu (e.ip % SHCT_PRIME) = s.SHCT cpu (e.ip % SHCT_PRIME) + 1) ∧
    (e.used ≠ 0 → SHCT_MAX ≤ s.SHCT cpu (e.ip % SHCT_PRIME) →
      (update_replacement_state h current_cycle s cpu set way full_addr ip victim_addr type
        hit).SHCT cpu (e.ip % SHCT_PRIME) = s.SHCT cpu (e.ip % SHCT_PRIME)) ∧
    (e.used = 0 →
      (update_replacement_state h current_cycle s cpu set way full_addr ip victim_addr type
        hit).SHCT = s.SHCT) ∧
    (∀ c i, ¬ (c = cpu ∧ i = e.ip % SHCT_PRIME) →
      (update_replacement_state h current_cycle s cpu set way full_addr ip victim_addr type
        hit).SHCT c i = s.SHCT c i) := by
  have hupd := update_sampler_miss h current_cycle s cpu set full_addr ip type m e
    (find_ne_length_of_mem set _ hsampled) (find_if_none h s set full_addr hnone)
    (min_element_unique _ m e he hmin hfirst).symm he
  rw [update_SHCT_of_ne_write h current_cycle s cpu set way full_addr ip victim_addr type hit
    htype, hupd]
  simp only
  refine ⟨?_, ?_, ?_, ?_⟩
  · intro hused hlt
    rw [if_pos hused, if_pos hlt]
    simp only [Function.update_same]
  · intro hused hge
    rw [if_pos hused, if_neg (by omega)]
  · intro hused
    rw [if_neg (by simpa using hused)]
  · intro c i hne
    split
    · split
      · by_cases hc : c = cpu
        · subst hc
          have hi : i ≠ e.ip % SHCT_PRIME := fun hi => hne ⟨rfl, hi⟩
          simp only [Function.update_same, Function.update_noteq hi]
        · simp only [Function.update_noteq hc]
      · rfl
    · rfl

set_option maxRecDepth 100000 in
/-- Witness of C15: in `ex_used_state` a load miss on a new line of set 1
evicts the entry at offset 0 of the sampler range, whose used flag is set and
whose signature is 256; the counter of core 0 at index 256 goes from 0 to 1. -/
theorem sampler_miss_increments_witness :
    ex_used_state.SHCT 0 (256 % SHCT_PRIME) = 0 ∧
    (update_replacement_state ex_host 9 ex_used_state 0 1 0 655424 256 0 0 0).SHCT 0
      (256 % SHCT_PRIME) = ex_used_state.SHCT 0 (256 % SHCT_PRIME) + 1 :=
  ⟨ex_used_SHCT,
    (sampler_miss_increments ex_host 9 ex_used_state 0 1 0 655424 256 0 0 0 0
      { valid := true, type := 0, used := 1, address := 131136, ip := 256, last_used := 5 }
      (by decide) (by rw [ex_used_rand_sets]; decide) (by rw [ex_used_range]; decide)
      (by rw [ex_used_range]; rfl) (by rw [ex_used_range]; decide)
      (fun j _ hj _ => absurd hj (by omega))).1 (by decide)
      (by rw [ex_used_SHCT]; decide)⟩

/-- C16: the sampler table transition of a call of a type other than `WRITE`
on a sampled set writes one entry of the set's sampler range, at position
`find set ship_rand_sets + m` of the table, and leaves every other entry
unchanged.  On a sampler hit, `m` is the offset of the first matching entry
`e`, which keeps its valid flag, address and signature and gets the access
type (its low 8 bits, the member being a `uint8_t`), `used = 1` and
`last_used = current_cycle`.  On a sampler miss, `m` is the offset of the
first entry `e` with the smallest `last_used`, which becomes valid with the
address, signature and type of the access, `used = 0` and
`last_used = current_cycle`. -/
theorem sampler_transition (h : Host) (current_cycle : Nat) (s : State)
    (cpu set way full_addr ip victim_addr type hit : Nat)
    (htype : type ≠ h.WRITE) (hsampled : set ∈ s.ship_rand_sets) :
    (∀ (m : Nat) (e : SAMPLER_class), (sampler_range h s set)[m]? = some e →
      h.eq_addr full_addr (8 + h.lg2 h.NUM_WAY) e = true →
      (∀ j x, j < m → (sampler_range h s set)[j]? = some x →
        h.eq_addr full_addr (8 + h.lg2 h.NUM_WAY) x = false) →
      (update_replacement_state h current_cycle s cpu set way full_addr ip victim_addr type
          hit).sampler
        = s.sampler.set (find set s.ship_rand_sets + m)
          { e with type := type % 256, used := 1, last_used := current_cycle }) ∧
    (∀ (m : Nat) (e : SAMPLER_class), (sampler_range h s set)[m]? = some e →
      (∀ x ∈ sampler_range h s set, h.eq_addr full_addr (8 + h.lg2 h.NUM_WAY) x = false) →
      (∀ x ∈ sampler_range h s set, e.last_used ≤ x.last_used) →
      (∀ j x, j < m → (sampler_range h s set)[j]? = some x → e.last_used < x.last_used) →
      (update_replacement_state h current_cycle s cpu set way full_addr ip victim_addr type
          hit).sampler
        = s.sampler.set (find set s.ship_rand_sets + m)
          { e with valid := true, address := full_addr, ip := ip, type := type % 256,
                   used := 0, last_used := current_cycle }) ∧
    (type < 256 → type % 256 = type) ∧
    (∀ (m : Nat) (e : SAMPLER_class) (j : Nat), j ≠ find set s.ship_rand_sets + m →
      (s.sampler.set (find set s.ship_rand_sets + m) e)[j]? = s.sampler[j]?) := by
  have hfound := find_ne_length_of_mem set _ hsampled
  have hs := update_sampler_of_ne_write h current_cycle s cpu set way full_addr ip victim_addr
    type hit htype
  refine ⟨?_, ?_, fun hlt => Nat.mod_eq_of_lt hlt, ?_⟩
  · intro m e he hmatch hfirst
    rw [hs, update_sampler_hit h current_cycle s cpu set full_addr ip type m e hfound
      (find_if_unique _ _ m e he hmatch hfirst).symm he]
  · intro m e he hnone hmin hfirst
    rw [hs, update_sampler_miss h current_cycle s cpu set full_addr ip type m e hfound
      (find_if_none h s set full_addr hnone)
      (min_element_unique _ m e he hmin hfirst).symm he]
  · intro m e j hj
    rw [List.getElem?_set_ne (Ne.symm hj)]

set_option maxRecDepth 100000 in
/-- Witness of C16: in `ex_used_state`, a load hit on the first line of set 1
(a sampler hit at offset 0) and a load miss on a new line of set 1 (a sampler
miss that replaces the entry at offset 0). -/
theorem sampler_transition_witness :
    (update_replacement_state ex_host 9 ex_used_state 0 1 0 131136 300 0 0 1).sampler
      = ex_used_state.sampler.set (find 1 ex_used_state.ship_rand_sets + 0)
        { valid := true, type := 0 % 256, used := 1, address := 131136, ip := 256,
          last_used := 9 } ∧
    (update_replacement_state ex_host 9 ex_used_state 0 1 0 655424 300 0 0 0).sampler
      = ex_used_state.sampler.set (find 1 ex_used_state.ship_rand_sets + 0)
        { valid := true, type := 0 % 256, used := 0, address := 655424, ip := 300,
          last_used := 9 } :=
  ⟨(sampler_transition ex_host 9 ex_used_state 0 1 0 131136 300 0 0 1 (by decide)
      (by rw [ex_used_rand_sets]; decide)).1 0
      { valid := true, type := 0, used := 1, address := 131136, ip := 256, last_used := 5 }
      (by rw [ex_used_range]; rfl) (by decide) (fun j _ hj _ => absurd hj (by omega)),
    (sampler_transition ex_host 9 ex_used_state 0 1 0 655424 300 0 0 0 (by decide)
      (by rw [ex_used_rand_sets]; decide)).2.1 0
      { valid := true, type := 0, used := 1, address := 131136, ip := 256, last_used := 5 }
      (by rw [ex_used_range]; rfl) (by rw [ex_used_range]; decide)
      (by rw [ex_used_range]; decide) (fun j _ hj _ => absurd hj (by omega))⟩

/-- C17: the sampler step runs only for sampled sets and types other than
`WRITE`: a call whose set is not in the sampled-sets list, or whose type is
`WRITE` (whatever the hit flag), leaves every sampler entry and every SHCT
counter unchanged. -/
theorem sampler_step_only_sampled_non_write (h : Host) (current_cycle : Nat) (s : State)
    (cpu set way full_addr ip victim_addr type hit : Nat)
    (hcase : set ∉ s.ship_rand_sets ∨ type = h.WRITE) :
    (update_replacement_state h current_cycle s cpu set way full_addr ip victim_addr type
        hit).sampler = s.sampler ∧
      (update_replacement_state h current_cycle s cpu set way full_addr ip victim_addr type
        hit).SHCT = s.SHCT := by
  by_cases ht : type = h.WRITE
  · subst ht
    exact update_write_frame h current_cycle s cpu set way full_addr ip victim_addr hit
  · have hset : set ∉ s.ship_rand_sets := hcase.resolve_right ht
    rw [update_sampler_of_ne_write h current_cycle s cpu set way full_addr ip victim_addr type
        hit ht,
      update_SHCT_of_ne_write h current_cycle s cpu set way full_addr ip victim_addr type hit
        ht,
      update_sampler_not_sampled h current_cycle s cpu set full_addr ip type hset]
    exact ⟨rfl, rfl⟩

/-- Witness of C17: after initialisation of `ex_host`, a load miss into set 0,
which is not sampled, and a write hit in set 1, which is sampled. -/
theorem sampler_step_only_sampled_non_write_witness :
    ((update_replacement_state ex_host 1 ex_init_state 0 0 0 131072 256 0 0 0).sampler
        = ex_init_state.sampler ∧
      (update_replacement_state ex_host 1 ex_init_state 0 0 0 131072 256 0 0 0).SHCT
        = ex_init_state.SHCT) ∧
    ((update_replacement_state ex_host 2 ex_init_state 0 1 0 131136 256 0 ex_host.WRITE
        1).sampler = ex_init_state.sampler ∧
      (update_replacement_state ex_host 2 ex_init_state 0 1 0 131136 256 0 ex_host.WRITE
        1).SHCT = ex_init_state.SHCT) :=
  ⟨sampler_step_only_sampled_non_write ex_host 1 ex_init_state 0 0 0 131072 256 0 0 0
      (Or.inl (by decide)),
    sampler_step_only_sampled_non_write ex_host 2 ex_init_state 0 1 0 131136 256 0
      ex_host.WRITE 1 (Or.inr rfl)⟩

/-- C18: `find_victim` equals the reference.  On a set whose RRPV values are
all in `[0, maxRRPV]` and have maximum `m`, with any fuel of at least 3 passes
it returns what `find_victim_reference` returns: the way is the lowest index
of the set whose RRPV equals `m`; every slot of the set has `maxRRPV - m`
added to it; the slots of every other set, the sampler, the SHCT and the
sampled-sets list are unchanged; and when `m = maxRRPV` the state is
unchanged. -/
theorem find_victim_refines_reference (h : Host) (s : State) (set : Nat) (m : Int)
    (hway : 1 ≤ h.NUM_WAY)
    (hlen : set * h.NUM_WAY + h.NUM_WAY ≤ s.ship_rrpv_values.length)
    (hrange : ∀ x ∈ rrpv_set h s.ship_rrpv_values set, 0 ≤ x ∧ x ≤ maxRRPV)
    (hm : m ∈ rrpv_set h s.ship_rrpv_values set)
    (hmax : ∀ x ∈ rrpv_set h s.ship_rrpv_values set, x ≤ m) :
    (∀ fuel, 3 ≤ fuel → find_victim h fuel s set = some (find_victim_reference h s set)) ∧
    (rrpv_set h s.ship_rrpv_values set)[(find_victim_reference h s set).1]? = some m ∧
    (∀ j x, j < (find_victim_reference h s set).1 →
      (rrpv_set h s.ship_rrpv_values set)[j]? = some x → x ≠ m) ∧
    (∀ j, j < h.NUM_WAY →
      (find_victim_reference h s set).2.ship_rrpv_values[set * h.NUM_WAY + j]?
        = (s.ship_rrpv_values[set * h.NUM_WAY + j]?).map (fun x => x + (maxRRPV - m))) ∧
    (∀ i, i < set * h.NUM_WAY ∨ set * h.NUM_WAY + h.NUM_WAY ≤ i →
      (find_victim_reference h s set).2.ship_rrpv_values[i]? = s.ship_rrpv_values[i]?) ∧
    (find_victim_reference h s set).2.sampler = s.sampler ∧
    (find_victim_reference h s set).2.SHCT = s.SHCT ∧
    (find_victim_reference h s set).2.ship_rand_sets = s.ship_rand_sets ∧
    (m = maxRRPV → (find_victim_reference h s set).2 = s) := by
  have hrm := range_max_unique _ m hm hmax
  obtain ⟨k, hk, hk3, href, hfv⟩ := find_victim_eq_reference h s set hway hlen hrange
  rw [hrm] at hk
  have hw : (find_victim_reference h s set).1 = find m (rrpv_set h s.ship_rrpv_values set) := by
    unfold find_victim_reference
    simp only [hrm]
  refine ⟨?_, ?_, ?_, ?_, ?_, rfl, rfl, rfl, ?_⟩
  · intro fuel hfuel
    rw [hfv fuel, if_pos (by omega)]
  · rw [hw]
    exact find_spec m _ (find_lt_length_of_mem m _ hm)
  · intro j x hj hx hxm
    rw [hw] at hj
    obtain ⟨y, hy, hp⟩ := find_if_first _ _ j hj
    rw [hx] at hy
    simp only [Option.some.injEq] at hy
    subst hy
    simp only [decide_eq_false_iff_not] at hp
    exact hp hxm
  · intro j hj
    rw [href, aged_getElem?_inside h _ set k j hlen hj, hk]
  · intro i hi
    rw [href]
    exact aged_getElem?_outside h _ set k i hlen hi
  · intro hm3
    have hk0 : k = 0 := by
      rw [hm3] at hk
      omega
    have hall : (find_victim_reference h s set).2
        = { s with ship_rrpv_values := (find_victim_reference h s set).2.ship_rrpv_values } :=
      rfl
    rw [hall, href, hk0, aged_zero]

set_option maxRecDepth 100000 in
/-- Witness of C18: set 0 of `ex_full_state`, whose slots hold `2, 2, 2, 2`;
the reference returns way 0 and the slots `3, 3, 3, 3`. -/
theorem find_victim_refines_reference_witness :
    (∀ fuel, 3 ≤ fuel →
      find_victim ex_host fuel ex_full_state 0
        = some (find_victim_reference ex_host ex_full_state 0)) ∧
    (find_victim_reference ex_host ex_full_state 0).1 = 0 ∧
    rrpv_set ex_host (find_victim_reference ex_host ex_full_state 0).2.ship_rrpv_values 0
      = [3, 3, 3, 3] :=
  ⟨(find_victim_refines_reference ex_host ex_full_state 0 2 (by decide)
      (by rw [ex_full_rrpv_length]; decide) (by rw [ex_full_set_zero]; decide)
      (by rw [ex_full_set_zero]; decide) (by rw [ex_full_set_zero]; decide)).1,
    by decide, by decide⟩

/-- C19: `update_replacement_state` writes at most one RRPV slot: every slot
other than `set * NUM_WAY + way` holds the same value after the call as
before, whatever the type, the hit flag and the sampler outcome, and the table
keeps its length. -/
theorem update_writes_one_rrpv_slot (h : Host) (current_cycle : Nat) (s : State)
    (cpu set way full_addr ip victim_addr type hit : Nat) (i : Nat)
    (hi : i ≠ set * h.NUM_WAY + way) :
    (update_replacement_state h current_cycle s cpu set way full_addr ip victim_addr type
        hit).ship_rrpv_values[i]? = s.ship_rrpv_values[i]? ∧
      (update_replacement_state h current_cycle s cpu set way full_addr ip victim_addr type
        hit).ship_rrpv_values.length = s.ship_rrpv_values.length := by
  refine ⟨?_,
    update_rrpv_length h current_cycle s cpu set way full_addr ip victim_addr type hit⟩
  rcases update_rrpv_cases h current_cycle s cpu set way full_addr ip victim_addr type hit with
    heq | ⟨v, _, heq⟩
  · rw [heq]
  · rw [heq, List.getElem?_set_ne (Ne.symm hi)]

/-- Witness of C19: a load hit on (set 0, way 1) of `ex_full_state` leaves the
slot of (set 0, way 0) as it was. -/
theorem update_writes_one_rrpv_slot_witness :
    (update_replacement_state ex_host 5 ex_full_state 0 0 1 262144 260 0 0
        1).ship_rrpv_values[0]? = ex_full_state.ship_rrpv_values[0]? ∧
      (update_replacement_state ex_host 5 ex_full_state 0 0 1 262144 260 0 0
        1).ship_rrpv_values.length = ex_full_state.ship_rrpv_values.length :=
  update_writes_one_rrpv_slot ex_host 5 ex_full_state 0 0 1 262144 260 0 0 1 0 (by decide)

/-- C20: `initialize_replacement` never completes when
`1 ≤ NUM_SET < 256 * NUM_CPUS`: with every fuel the result is `none`.  The
`for` loop completes at most `NUM_SET` iterations, and on a list that holds
every index below `NUM_SET` every generated value `(seed / 65536) % NUM_SET`
is in the list, so the duplicate-rejection loop has no terminating execution. -/
theorem initialize_replacement_diverges (h : Host) (hpos : 1 ≤ h.NUM_SET)
    (hsmall : h.NUM_SET < 256 * h.NUM_CPUS) :
    (∀ fuel, initialize_replacement h fuel = none) ∧
    (∀ (fuel n rand_seed : Nat) (r : Nat × List Nat),
      sample_loop h.NUM_SET fuel n rand_seed [] = some r → n ≤ h.NUM_SET) ∧
    (∀ sets : List Nat, sets.Pairwise (· < ·) → (∀ v, v < h.NUM_SET → v ∈ sets) →
      ∀ (fuel rand_seed : Nat),
        reject_loop h.NUM_SET sets fuel rand_seed (seed_val h.NUM_SET rand_seed)
          (lower_bound (seed_val h.NUM_SET rand_seed) sets) = none) := by
  refine ⟨?_, ?_, ?_⟩
  · intro fuel
    cases hinit : initialize_replacement h fuel with
    | none => rfl
    | some s =>
      obtain ⟨seed, hloop⟩ := initialize_rand_sets h fuel s hinit
      have := sample_loop_iterations_le h.NUM_SET fuel _ _ (by omega) _ hloop
      unfold SAMPLER_SET at this
      omega
  · intro fuel n seed r hr
    exact sample_loop_iterations_le h.NUM_SET fuel n seed (by omega) r hr
  · intro sets hs hfull fuel seed
    exact reject_loop_full h.NUM_SET (by omega) sets hs hfull fuel seed

/-- Witness of C20: `ex_small_host` has 128 sets and one core. -/
theorem initialize_replacement_diverges_witness :
    (∀ fuel, initialize_replacement ex_small_host fuel = none) ∧
    (∀ (fuel n rand_seed : Nat) (r : Nat × List Nat),
      sample_loop ex_small_host.NUM_SET fuel n rand_seed [] = some r →
        n ≤ ex_small_host.NUM_SET) ∧
    (∀ sets : List Nat, sets.Pairwise (· < ·) →
      (∀ v, v < ex_small_host.NUM_SET → v ∈ sets) →
      ∀ (fuel rand_seed : Nat),
        reject_loop ex_small_host.NUM_SET sets fuel rand_seed
          (seed_val ex_small_host.NUM_SET rand_seed)
          (lower_bound (seed_val ex_small_host.NUM_SET rand_seed) sets) = none) :=
  initialize_replacement_diverges ex_small_host (by decide) (by decide)

end Ship
